import Mathlib

/-!
Verification of the lastanime-backend episode-ingestion pipeline.

This file gives a shallow embedding, in Lean, of the core functions of the
repository (homepage card extraction, episode-code parsing, series-slug
derivation, the retrying fetch loop, the proxy pool, the persistence helpers
and the latest-window pruning), and proves or refutes the behavioural claims
made about them.  Each definition carries a comment naming the JavaScript
function in the repository that it embeds.  JavaScript strings are modelled
as Lean `String`/`List Char`; machine integers do not overflow in any of the
embedded code paths, so numbers are modelled as `Nat`.
-/

namespace LastAnime

/-- Numeric value of a decimal digit character. -/
def digitVal (c : Char) : Nat := c.toNat - 48

/-- Value of an all-digit character list, as computed by
`parseInt(s, 10)` on an all-digit JavaScript string. -/
def digitsToNat (ds : List Char) : Nat :=
  ds.foldl (fun acc c => 10 * acc + digitVal c) 0

/-- The regex letter `x` under the `i` flag: matches both cases. -/
def isX (c : Char) : Bool := c = 'x' || c = 'X'

/-- One attempt of the JavaScript regex `(\d+)x(\d+)` (with the `i` flag)
anchored at the head of `cs`; returns the two captured digit runs.  The
first `\d+` is greedy; since a digit can never match the literal `x`, the
greedy match never backtracks, so taking the maximal digit run is exact. -/
def matchCodeAt (cs : List Char) : Option (List Char × List Char) :=
  let d1 := cs.takeWhile Char.isDigit
  let r1 := cs.dropWhile Char.isDigit
  if d1.isEmpty then none
  else
    match r1 with
    | [] => none
    | c :: r2 =>
      if isX c then
        let d2 := r2.takeWhile Char.isDigit
        if d2.isEmpty then none else some (d1, d2)
      else none

/-- Leftmost match of `(\d+)x(\d+)` with the `i` flag: JavaScript
`String.prototype.match` tries each start position from left to right. -/
def scanCode : List Char → Option (List Char × List Char)
  | [] => none
  | c :: cs =>
    match matchCodeAt (c :: cs) with
    | some p => some p
    | none => scanCode cs

/-- The `season`/`episode` pair produced by `parseEpisodeCode`. -/
structure EpisodeCode where
  season : Nat
  episode : Nat
deriving Repr, DecidableEq

/-- `parseEpisodeCode` from src/lib/homepage-parser.js:
`url.match(/(\d+)x(\d+)/i)`, returning `season = parseInt(match[1], 10)`
and `episode = parseInt(match[2], 10)`, or null when there is no match. -/
def parseEpisodeCode (url : String) : Option EpisodeCode :=
  match scanCode url.data with
  | none => none
  | some (d1, d2) => some ⟨digitsToNat d1, digitsToNat d2⟩

/-- Specification-side predicate: `cs` starts, at its head, with a substring
matching `<digits>x<digits>` (case-insensitive `x`). -/
def CodeAt (cs : List Char) : Prop :=
  ∃ d1 c d2 rest, cs = d1 ++ c :: (d2 ++ rest) ∧ d1 ≠ [] ∧
    (∀ ch ∈ d1, ch.isDigit = true) ∧ (c = 'x' ∨ c = 'X') ∧ d2 ≠ [] ∧
    (∀ ch ∈ d2, ch.isDigit = true)

/-- Specification-side predicate: somewhere in `s` there is a substring
matching `<digits>x<digits>` (case-insensitive). -/
def HasCode (s : String) : Prop := ∃ i, CodeAt (s.data.drop i)

/-- Characters the model accepts inside a URL scheme. -/
def isSchemeChar (c : Char) : Bool :=
  c.isAlpha || c.isDigit || c = '+' || c = '-' || c = '.'

/-- End of the host component of an http(s) URL. -/
def isHostEnd (c : Char) : Bool := c = '/' || c = '?' || c = '#'

/-- Start of the query or fragment component. -/
def isPathEnd (c : Char) : Bool := c = '?' || c = '#'

/-- Result of the WHATWG URL constructor: the components the repository
reads (`pathname`) or renders through `.href`. -/
structure JsUrl where
  scheme : String
  host : Option String
  pathname : String
  searchAndHash : String
deriving Repr, DecidableEq

/-- Model of `new URL(input)` without a base argument, restricted to the
input shapes this repository produces: an absolute URL `scheme:rest` where
for the special schemes http/https a non-empty host is required and the
pathname defaults to `/`, and where any other scheme keeps `rest` as an
opaque path.  Inputs with no valid `scheme:` head make the constructor
throw, modelled as `none`.  Userinfo/port splitting, host case folding and
percent-encoding are not modelled; no input in this development uses them. -/
def jsUrlOfList (cs : List Char) : Option JsUrl :=
  let sch := cs.takeWhile isSchemeChar
  let rest := cs.dropWhile isSchemeChar
  match rest with
  | ':' :: afterColon =>
    if sch.isEmpty || !(sch.headD 'a').isAlpha then none
    else
      let scheme := String.mk (sch.map Char.toLower)
      if scheme = "http" || scheme = "https" then
        let afterSlashes := afterColon.dropWhile (fun c => c = '/')
        let host := afterSlashes.takeWhile (fun c => !isHostEnd c)
        let tail := afterSlashes.dropWhile (fun c => !isHostEnd c)
        if host.isEmpty then none
        else
          let path := tail.takeWhile (fun c => !isPathEnd c)
          let sh := tail.dropWhile (fun c => !isPathEnd c)
          some { scheme := scheme, host := some (String.mk host),
                 pathname := if path.isEmpty then "/" else String.mk path,
                 searchAndHash := String.mk sh }
      else
        let path := afterColon.takeWhile (fun c => !isPathEnd c)
        let sh := afterColon.dropWhile (fun c => !isPathEnd c)
        some { scheme := scheme, host := none,
               pathname := String.mk path, searchAndHash := String.mk sh }
  | _ => none

/-- Model of `new URL(input)`, on strings. -/
def jsUrlOfString (s : String) : Option JsUrl := jsUrlOfList s.data

/-- JavaScript `String.prototype.split(sep)` for a single-character
separator: empty groups are kept. -/
def splitOnChar (sep : Char) : List Char → List (List Char)
  | [] => [[]]
  | c :: rest =>
    let r := splitOnChar sep rest
    if c = sep then [] :: r
    else
      match r with
      | [] => [[c]]
      | g :: gs => (c :: g) :: gs

/-- The expression `pathname.split(sep)/...filter(Boolean)` used throughout the
repository: path segments with the empty segments dropped. -/
def pathParts (pathname : String) : List String :=
  ((splitOnChar '/' pathname.data).filter (fun g => !g.isEmpty)).map String.mk

/-- The homepage-parser.js replacement of the end-anchored pattern `-\d+x\d+` with
the `i` flag by the empty string: strip a
trailing `-<digits>x<digits>` suffix, case-insensitive on the `x`.  The
end-anchored pattern is recognised from the reversed character list; the
greedy digit runs never backtrack because a digit cannot match `x` or `-`. -/
def stripCodeSuffixCI (s : String) : String :=
  let r := s.data.reverse
  let d2 := r.takeWhile Char.isDigit
  let r1 := r.dropWhile Char.isDigit
  if d2.isEmpty then s
  else
    match r1 with
    | c :: r2 =>
      if isX c then
        let d1 := r2.takeWhile Char.isDigit
        let r3 := r2.dropWhile Char.isDigit
        if d1.isEmpty then s
        else
          match r3 with
          | '-' :: rest => String.mk rest.reverse
          | _ => s
      else s
    | [] => s

/-- The monitoring-service.js and scraper.js replacement of the end-anchored
pattern `-\d+x\d+` plus an optional final slash by the empty string: same
stripping but case-sensitive (no `i` flag) and with an
optional final `/`; the optional slash is consumed only when the rest of the
end-anchored pattern matches. -/
def stripCodeSuffixSlashOpt (s : String) : String :=
  let r0 := s.data.reverse
  let r := match r0 with
    | '/' :: rest => rest
    | _ => r0
  let d2 := r.takeWhile Char.isDigit
  let r1 := r.dropWhile Char.isDigit
  if d2.isEmpty then s
  else
    match r1 with
    | c :: r2 =>
      if c = 'x' then
        let d1 := r2.takeWhile Char.isDigit
        let r3 := r2.dropWhile Char.isDigit
        if d1.isEmpty then s
        else
          match r3 with
          | '-' :: rest => String.mk rest.reverse
          | _ => s
      else s
    | [] => s

/-- `deriveSeriesSlugFromEpisodeUrl` from src/lib/homepage-parser.js.  The
JavaScript body is wrapped in try/catch returning the literal "unknown": a
URL-constructor throw, and equally the TypeError raised by calling `.match`
on the undefined last element of an empty segment list, both land there. -/
def deriveSeriesSlugFromEpisodeUrl (url : String) : String :=
  match jsUrlOfString url with
  | none => "unknown"
  | some u =>
    match (pathParts u.pathname).getLast? with
    | none => "unknown"
    | some episodePart =>
      match scanCode episodePart.data with
      | some _ => stripCodeSuffixCI episodePart
      | none => episodePart

/-- The title-casing fallback of monitor.js line 50:
`seriesSlug.split('-').map(w => w.charAt(0).toUpperCase() + w.slice(1)).join(' ')`. -/
def titleCaseSlug (slug : String) : String :=
  String.intercalate " " ((splitOnChar '-' slug.data).map (fun w =>
    match w with
    | [] => ""
    | c :: rest => String.mk (Char.toUpper c :: rest)))

/-- The URL-derived series identity used by monitor.js lines 47 to 51 when
neither breadcrumb lookup produced both a title and a slug. -/
def monitorFallbackIdentity (episodeUrl : String) : String × String :=
  let seriesSlug := deriveSeriesSlugFromEpisodeUrl episodeUrl
  let seriesTitle := titleCaseSlug seriesSlug
  (seriesSlug, seriesTitle)

/-- `createEpisodeKey` from monitoring-service.js: the dedup-cache key
combining the URL-derived slug with the two raw digit captures. -/
def createEpisodeKey (url : String) : Option String :=
  match scanCode url.data with
  | none => none
  | some (m1, m2) =>
    match jsUrlOfString url with
    | none => none
    | some u =>
      match (pathParts u.pathname).getLast? with
      | none => none
      | some seg =>
        some (stripCodeSuffixSlashOpt seg ++ "_" ++ String.mk m1 ++ "_"
          ++ String.mk m2)

/-- Lowercased character list, the effect of the `i` regex flag on ASCII. -/
def lowerList (s : String) : List Char := s.data.map Char.toLower

/-- Literal string-prefix test (JavaScript `String.prototype.startsWith`). -/
def startsWithLit (s pre : String) : Bool := pre.data.isPrefixOf s.data

/-- The guard `^javascript:` with the `i` flag used by `normalizeUrl`. -/
def isJavascriptHref (s : String) : Bool :=
  "javascript:".data.isPrefixOf (lowerList s)

/-- The `.href` rendering of a parsed URL. -/
def renderHref (u : JsUrl) : String :=
  match u.host with
  | some h => u.scheme ++ "://" ++ h ++ u.pathname ++ u.searchAndHash
  | none => u.scheme ++ ":" ++ u.pathname ++ u.searchAndHash

/-- Model of `new URL(rawUrl, base)` with the fixed base
`https://toonstream.love` used by fetch-utils.js `normalizeUrl`: an input
that parses absolutely is kept; otherwise it is resolved against the base
(protocol-relative, path-absolute, or path-relative below the root path).
Dot-segment normalization is not modelled; the repository never feeds
segments containing `.` or `..`. -/
def jsUrlResolveAgainstBase (raw : String) : Option JsUrl :=
  match jsUrlOfString raw with
  | some u => some u
  | none =>
    match raw.data with
    | '/' :: '/' :: rest => jsUrlOfString ("https:" ++ String.mk ('/' :: '/' :: rest))
    | '/' :: rest =>
      let cs := '/' :: rest
      some { scheme := "https", host := some "toonstream.love",
             pathname := String.mk (cs.takeWhile (fun c => !isPathEnd c)),
             searchAndHash := String.mk (cs.dropWhile (fun c => !isPathEnd c)) }
    | cs =>
      some { scheme := "https", host := some "toonstream.love",
             pathname := "/" ++ String.mk (cs.takeWhile (fun c => !isPathEnd c)),
             searchAndHash := String.mk (cs.dropWhile (fun c => !isPathEnd c)) }

/-- `normalizeUrl` from src/lib/fetch-utils.js (identical copies live in
scraper.js and monitoring-service.js): null for falsy or `javascript:`
inputs, null when the URL constructor throws, else the resolved `.href`. -/
def normalizeUrl (rawUrl : String) : Option String :=
  if rawUrl = "" || isJavascriptHref rawUrl then none
  else (jsUrlResolveAgainstBase rawUrl).map renderHref

/-- Substring test on character lists. -/
def containsSub (pat : List Char) : List Char → Bool
  | [] => pat.isEmpty
  | c :: rest => pat.isPrefixOf (c :: rest) || containsSub pat rest

/-- Case-insensitive substring test; `pat` is supplied lowercase. -/
def containsCI (s pat : String) : Bool := containsSub pat.data (lowerList s)

/-- The gate regex of `extractHomepageEpisodeCards`:
a test for `/(episode|watch|anime|series)/` between slashes, `i` flag. -/
def matchesSectionPattern (href : String) : Bool :=
  containsCI href "/episode/" || containsCI href "/watch/"
    || containsCI href "/anime/" || containsCI href "/series/"

/-- The stricter filter regex of `filterRelevantHomepageEntries`. -/
def isEpisodeHref (href : String) : Bool := containsCI href "/episode/"

/-- Whitespace for the purposes of `\s`, trim and text collapsing (ASCII). -/
def isWs (c : Char) : Bool := c = ' ' || c = '\t' || c = '\n' || c = '\r'

/-- JavaScript `replace(\s+ global, single space)`. -/
def collapseWs : List Char → List Char
  | [] => []
  | [c] => [if isWs c then ' ' else c]
  | c :: d :: rest =>
    if isWs c && isWs d then collapseWs (d :: rest)
    else (if isWs c then ' ' else c) :: collapseWs (d :: rest)

/-- JavaScript `String.prototype.trim` (ASCII whitespace). -/
def trimWs (s : String) : String :=
  String.mk (((s.data.dropWhile isWs).reverse.dropWhile isWs).reverse)

/-- JavaScript truthiness of an optional string attribute: an absent
attribute and the empty string are both falsy. -/
def jsNonEmpty (o : Option String) : Option String :=
  match o with
  | some s => if s = "" then none else some s
  | none => none

/-- A cheerio anchor element, flattened to the attributes and DOM context
that `collectAnchorInfo` reads: the `href` and `title` attributes, the
anchor text, the `data-src`-or-`src` of the first image inside the anchor
and inside the nearest card-like ancestor (absent when no such image or
attribute exists), and the heading text and id-or-class of the nearest
context ancestor. -/
structure Anchor where
  href : String
  titleAttr : Option String
  text : String
  imgSrc : Option String
  cardImgSrc : Option String
  contextHeader : Option String
  contextIdOrClass : Option String
deriving Repr, DecidableEq

/-- The per-pass card record built by `collectAnchorInfo`. -/
structure HomepageCard where
  title : String
  url : Option String
  thumbnail : Option String
  context : String
deriving Repr, DecidableEq

/-- `collectAnchorInfo` from src/lib/homepage-parser.js. -/
def collectAnchorInfo (a : Anchor) : HomepageCard :=
  let rawTitle :=
    match jsNonEmpty a.titleAttr with
    | some t => t
    | none => trimWs a.text
  let title0 := String.mk (collapseWs rawTitle.data)
  let href := normalizeUrl a.href
  let thumb :=
    match a.imgSrc.bind normalizeUrl with
    | some t => some t
    | none => a.cardImgSrc.bind normalizeUrl
  let context0 :=
    match jsNonEmpty a.contextHeader with
    | some h => some h
    | none => jsNonEmpty a.contextIdOrClass
  { title := if title0 = "" then context0.getD "Untitled" else title0,
    url := href,
    thumbnail := thumb,
    context := context0.getD "page" }

/-- The anchor loop of `extractHomepageEpisodeCards`, with the `seen` set of
already-kept normalized hrefs made explicit. -/
def extractCardsGo : List Anchor → List String → List HomepageCard
  | [], _ => []
  | a :: rest, seen =>
    match normalizeUrl a.href with
    | none => extractCardsGo rest seen
    | some href =>
      if !matchesSectionPattern href then extractCardsGo rest seen
      else if !startsWithLit href "https://toonstream.love" then
        extractCardsGo rest seen
      else if href ∈ seen then extractCardsGo rest seen
      else collectAnchorInfo a :: extractCardsGo rest (href :: seen)

/-- `extractHomepageEpisodeCards` from src/lib/homepage-parser.js, over the
document order list of `a[href]` anchors. -/
def extractHomepageEpisodeCards (anchors : List Anchor) : List HomepageCard :=
  extractCardsGo anchors []

/-- `filterRelevantHomepageEntries` from src/lib/homepage-parser.js. -/
def filterRelevantHomepageEntries (entries : List HomepageCard) :
    List HomepageCard :=
  entries.filter (fun e =>
    match e.url with
    | some u => isEpisodeHref u
    | none => false)

/-- Specification-side same-origin comparison (scheme and host) used to
state what the spec asserts about the homepage filter. -/
def sameOriginB (u v : String) : Bool :=
  match jsUrlOfString u, jsUrlOfString v with
  | some a, some b => a.scheme == b.scheme && a.host == b.host
  | _, _ => false

/-- An iframe element, flattened to its `src` and `data-src` attributes. -/
structure IframeEl where
  src : Option String
  dataSrc : Option String
deriving Repr, DecidableEq

/-- A detail page, flattened to what the embed collectors read: the present
numbered `div#options-i` containers with the iframes inside each, and the
document-order list of every iframe on the page. -/
structure EpisodePage where
  optionDivs : List (Nat × List IframeEl)
  allIframes : List IframeEl
deriving Repr, DecidableEq

/-- The cheerio lookup of container `div#options-i`. -/
def optLookup (p : EpisodePage) (i : Nat) : Option (List IframeEl) :=
  (p.optionDivs.find? (fun d => d.1 == i)).map (fun d => d.2)

/-- The expression `attr src or-else attr data-src` with JavaScript
falsiness. -/
def iframeRawSrc (f : IframeEl) : Option String :=
  match jsNonEmpty f.src with
  | some s => some s
  | none => jsNonEmpty f.dataSrc

/-- The resolved embed URL of scraper.js `extractIframeEmbeds`. -/
def iframeUrl (f : IframeEl) : Option String :=
  match iframeRawSrc f with
  | some s => normalizeUrl s
  | none => none

/-- One entry of the servers list: the option-container index, or none for
an embed found by the supplementary whole-page pass. -/
structure ServerEmbed where
  option : Option Nat
  url : String
deriving Repr, DecidableEq

/-- The numbered-container pass of `extractIframeEmbeds` (options 1..20). -/
def optionPassEmbeds (p : EpisodePage) : List ServerEmbed :=
  (List.range' 1 20).flatMap (fun i =>
    match optLookup p i with
    | none => []
    | some frames =>
      frames.filterMap (fun f => (iframeUrl f).map (fun u => ⟨some i, u⟩)))

/-- The supplementary whole-page pass of `extractIframeEmbeds`: every iframe
whose resolved URL is not already collected is appended with a null option
index. -/
def addFallbackEmbeds (acc : List ServerEmbed) : List IframeEl → List ServerEmbed
  | [] => acc
  | f :: fs =>
    match iframeUrl f with
    | none => addFallbackEmbeds acc fs
    | some u =>
      if acc.any (fun e => e.url == u) then addFallbackEmbeds acc fs
      else addFallbackEmbeds (acc ++ [⟨none, u⟩]) fs

/-- `extractIframeEmbeds` from scraper.js. -/
def extractIframeEmbeds (p : EpisodePage) : List ServerEmbed :=
  addFallbackEmbeds (optionPassEmbeds p) p.allIframes

/-- The servers loop of monitor.js `scrapeEpisodeDetails` lines 57 to 65:
raw `src`-or-`data-src` strings from the numbered containers only, with no
option tag, no URL normalization, no supplementary pass and no dedup. -/
def monitorCollectServers (p : EpisodePage) : List String :=
  (List.range' 1 20).flatMap (fun i =>
    match optLookup p i with
    | none => []
    | some frames => frames.filterMap iframeRawSrc)

/-- A stored row of the `episodes` table.  The natural key is
`(series_slug, season, episode)`. -/
structure EpisodeRow where
  series_slug : String
  season : Nat
  episode : Nat
  title : String
  thumbnail : String
  servers : List String
deriving Repr, DecidableEq

/-- Equality on the natural key `(series_slug, season, episode)`. -/
def sameEpisodeKey (a b : EpisodeRow) : Bool :=
  a.series_slug == b.series_slug && a.season == b.season
    && a.episode == b.episode

/-- `saveEpisode` from src/lib/supabase-helpers.js, restricted to its effect
on the `episodes` table (the preceding `ensureSeriesExists` call touches
only the separate `series` table): first a select on the natural key; when a
row exists, return without writing; otherwise insert a new row.  The Bool is
the `saved` field of the returned object. -/
def saveEpisode (table : List EpisodeRow) (d : EpisodeRow) :
    List EpisodeRow × Bool :=
  if table.any (fun r => sameEpisodeKey r d) then (table, false)
  else (table ++ [d], true)

/-- The keyed upsert offered by the durable store (PostgREST
`upsert(..., onConflict key)`): replace the row with the conflicting key,
else insert. -/
def upsertByKey (keyEq : EpisodeRow → EpisodeRow → Bool)
    (table : List EpisodeRow) (d : EpisodeRow) : List EpisodeRow :=
  if table.any (fun r => keyEq r d) then
    table.map (fun r => if keyEq r d then d else r)
  else table ++ [d]

/-- `upsertEpisode` from src/supabase-client.js: a genuine upsert on
conflict of `series_slug,season,episode`. -/
def upsertEpisode (table : List EpisodeRow) (d : EpisodeRow) :
    List EpisodeRow :=
  upsertByKey sameEpisodeKey table d

/-- A stored row of the `latest_episodes` table.  `added_at` timestamps are
modelled as naturals; `id` is the database row id used by one of the two
prune implementations. -/
structure LatestRow where
  id : Nat
  series_slug : String
  season : Nat
  episode : Nat
  series_title : String
  episode_title : String
  thumbnail : String
  added_at : Nat
deriving Repr, DecidableEq

/-- Equality on the natural key of `latest_episodes`. -/
def sameLatestKey (a b : LatestRow) : Bool :=
  a.series_slug == b.series_slug && a.season == b.season
    && a.episode == b.episode

/-- Insertion step for the descending-by-`added_at` ordering of the query
`order(added_at, descending)`. -/
def insertByAddedAtDesc (r : LatestRow) : List LatestRow → List LatestRow
  | [] => [r]
  | x :: xs =>
    if x.added_at ≤ r.added_at then r :: x :: xs
    else x :: insertByAddedAtDesc r xs

/-- The result set of `select().order(added_at, descending)`. -/
def sortByAddedAtDesc : List LatestRow → List LatestRow
  | [] => []
  | x :: xs => insertByAddedAtDesc x (sortByAddedAtDesc xs)

/-- `pruneLatestEpisodes` from src/lib/supabase-helpers.js (the monitor
path): fetch all rows ordered by `added_at` descending; when more than
`maxEpisodes` exist, delete the rows beyond the first `maxEpisodes` by row
id. -/
def pruneLatestEpisodesById (maxEpisodes : Nat) (table : List LatestRow) :
    List LatestRow :=
  let all := sortByAddedAtDesc table
  if all.length ≤ maxEpisodes then table
  else
    let toDelete := (all.drop maxEpisodes).map (fun r => r.id)
    table.filter (fun r => !(toDelete.any (fun i => i == r.id)))

/-- `pruneLatestEpisodes` from src/supabase-client.js (the scraper path):
same fetch; the rows beyond the first `maxCount` are deleted one by one by
their natural key. -/
def pruneLatestEpisodesByKey (maxCount : Nat) (table : List LatestRow) :
    List LatestRow :=
  let all := sortByAddedAtDesc table
  if all.length > maxCount then
    let toDelete := all.drop maxCount
    table.filter (fun r => !(toDelete.any (fun d => sameLatestKey d r)))
  else table

/-- The attempt budget of scraper.js `fetchHtmlWithRetry`:
`retries * Math.max(1, proxyList.length or-else 1)`. -/
def totalAttempts (retries proxyCount : Nat) : Nat :=
  retries * Nat.max 1 (if proxyCount = 0 then 1 else proxyCount)

/-- The retry loop shared by both `fetchHtmlWithRetry` implementations,
parameterised by an oracle giving the outcome of the i-th HTTP attempt
(1-indexed): return the first successful body immediately; otherwise
remember the error, and after the last attempt fail carrying the last
error (`none` models the initial null `lastErr` when the budget is zero).
The second component counts the attempts actually made. -/
def fetchFrom (attempt : Nat → Except String String) :
    Nat → Nat → Option String → Except (Option String) String × Nat
  | _, 0, last => (Except.error last, 0)
  | i, rem + 1, _last =>
    match attempt i with
    | Except.ok body => (Except.ok body, 1)
    | Except.error e =>
      let r := fetchFrom attempt (i + 1) rem (some e)
      (r.1, r.2 + 1)

/-- `fetchHtmlWithRetry` from src/scraper.js: attempt budget
`retries * max(1, proxyCount)`. -/
def fetchHtmlWithRetryScraper (retries proxyCount : Nat)
    (attempt : Nat → Except String String) :
    Except (Option String) String × Nat :=
  fetchFrom attempt 1 (totalAttempts retries proxyCount) none

/-- `fetchHtmlWithRetry` from src/lib/fetch-utils.js (the monitor path): the
same loop with a budget of exactly `retries` attempts and no proxies. -/
def fetchHtmlWithRetrySimple (retries : Nat)
    (attempt : Nat → Except String String) :
    Except (Option String) String × Nat :=
  fetchFrom attempt 1 retries none

/-- The state of src/proxy-manager.js `ProxyManager`. -/
structure ProxyState where
  proxies : List String
  currentIndex : Nat
  failedProxies : List String
deriving Repr, DecidableEq

/-- The bounded scan of `getNextProxy`: up to `fuel = proxies.length`
iterations, each reading the proxy under the cursor, advancing the cursor
modulo the list length, and returning the proxy unless quarantined. -/
def getNextProxyGo : Nat → ProxyState → Option String × ProxyState
  | 0, st => (none, st)
  | fuel + 1, st =>
    let proxy := st.proxies.getD st.currentIndex ""
    let st' := { st with currentIndex := (st.currentIndex + 1) % st.proxies.length }
    if st.failedProxies.any (fun q => q == proxy) then getNextProxyGo fuel st'
    else (some proxy, st')

/-- `ProxyManager.getNextProxy` from src/proxy-manager.js: null when no
proxies are configured; otherwise scan once around the rotation for a
non-quarantined proxy; when every proxy is quarantined, clear the
quarantine set and return the first proxy of the configured list. -/
def getNextProxy (st : ProxyState) : Option String × ProxyState :=
  if st.proxies.isEmpty then (none, st)
  else
    match getNextProxyGo st.proxies.length st with
    | (some p, st') => (some p, st')
    | (none, st') => (some (st.proxies.getD 0 ""), { st' with failedProxies := [] })

/-- A homepage card as consumed by the poll loops. -/
structure MonitorCard where
  title : String
  url : String
  thumbnail : Option String
deriving Repr, DecidableEq

/-- `processEpisodeCard` from monitor.js, with the awaited side effects
(scrapeEpisodeDetails, saveEpisode, addToLatestEpisodes,
pruneLatestEpisodes) abstracted into a per-URL outcome oracle `step`; a
thrown error from any of them is an `Except.error`.  The dedup key
(`episodeKey = card.url`) is added to the processed set only on the success
path; the catch block logs and falls through, so a failing card leaves the
set unchanged and the caller proceeds to the next card. -/
def processEpisodeCard (step : String → Except String Unit)
    (processed : List String) (card : MonitorCard) : List String :=
  match parseEpisodeCode card.url with
  | none => processed
  | some _ =>
    let episodeKey := card.url
    if episodeKey ∈ processed then processed
    else
      match step card.url with
      | Except.ok _ => episodeKey :: processed
      | Except.error _ => processed

/-- The card loop of monitor.js `pollHomepage`: every card is processed in
order; a failure recorded for one card does not stop the fold. -/
def monitorPollCards (step : String → Except String Unit)
    (processed : List String) (cards : List MonitorCard) : List String :=
  cards.foldl (processEpisodeCard step) processed

/-- `scrapeEpisode` from src/scraper.js as seen by its caller: the whole
body sits in a try/catch whose catch logs and returns null, so the promise
never rejects; an internal failure (fetch exhaustion, persistence error)
surfaces only as a null return value. -/
def scrapeEpisodeResult (steps : Except String Unit) : Option Unit :=
  match steps with
  | Except.ok u => some u
  | Except.error _ => none

/-- The card-loop body of src/monitoring-service.js `pollHomepage` lines
108 to 133: skip cards without a key or already seen; otherwise await
`scrapeEpisode` and then add the key to the processed set.  Because
`scrapeEpisodeResult` never throws, the try/catch around the await cannot
skip the add: the key is added whatever the outcome. -/
def servicePollCard (steps : String → Except String Unit)
    (processed : List String) (card : MonitorCard) : List String :=
  match createEpisodeKey card.url with
  | none => processed
  | some episodeKey =>
    if episodeKey ∈ processed then processed
    else
      let _result := scrapeEpisodeResult (steps card.url)
      episodeKey :: processed

/-- The card loop of src/monitoring-service.js `pollHomepage`. -/
def servicePollCards (steps : String → Except String Unit)
    (processed : List String) (cards : List MonitorCard) : List String :=
  cards.foldl (servicePollCard steps) processed

/-- The combined keep-condition of the anchor loop: section pattern plus the
literal prefix test against the hard-coded homepage origin string. -/
def gauntletB (h : String) : Bool :=
  matchesSectionPattern h && startsWithLit h "https://toonstream.love"

/-- The normalized hrefs of the anchors that pass the keep-condition,
before dedup, in document order. -/
def gauntletHrefs (anchors : List Anchor) : List String :=
  anchors.filterMap (fun a =>
    match normalizeUrl a.href with
    | some h => if gauntletB h then some h else none
    | none => none)

/-- First-occurrence dedup relative to an already-seen set. -/
def dedupFrom : List String → List String → List String
  | [], _ => []
  | h :: t, seen =>
    if h ∈ seen then dedupFrom t seen else h :: dedupFrom t (h :: seen)

/-- A concrete latest-window row used by the C4 witness: id, episode and
timestamp all equal to `n`. -/
def exLatestRow (n : Nat) : LatestRow := ⟨n, "s", 1, n, "t", "e", "", n⟩

/-- Twelve window entries with strictly increasing `added_at` 1..12. -/
def exLatestTable : List LatestRow := (List.range' 1 12).map exLatestRow

lemma takeWhile_all_append (p : Char → Bool) (d : List Char) (t : List Char)
    (hd : ∀ ch ∈ d, p ch = true) :
    (d ++ t).takeWhile p = d ++ t.takeWhile p ∧
      (d ++ t).dropWhile p = t.dropWhile p := by
  induction d with
  | nil => simp
  | cons a d ih =>
    have ha : p a = true := hd a (by simp)
    have ih' := ih (fun ch hch => hd ch (by simp [hch]))
    simp [List.takeWhile_cons, List.dropWhile_cons, ha, ih'.1, ih'.2]

lemma takeWhile_stops (p : Char → Bool) (d : List Char) (c : Char)
    (t : List Char) (hd : ∀ ch ∈ d, p ch = true) (hc : p c = false) :
    (d ++ c :: t).takeWhile p = d ∧ (d ++ c :: t).dropWhile p = c :: t := by
  have h := takeWhile_all_append p d (c :: t) hd
  simp [List.takeWhile_cons, List.dropWhile_cons, hc] at h
  exact h

lemma isX_iff (c : Char) : isX c = true ↔ c = 'x' ∨ c = 'X' := by
  simp [isX]

lemma isDigit_of_isX {c : Char} (h : c = 'x' ∨ c = 'X') :
    c.isDigit = false := by
  rcases h with h | h <;> subst h <;> decide

/-- Soundness: a successful anchored match exhibits a decomposition. -/
lemma matchCodeAt_some {cs : List Char} {d1 d2 : List Char}
    (h : matchCodeAt cs = some (d1, d2)) :
    ∃ c rest, cs = d1 ++ c :: (d2 ++ rest) ∧ d1 ≠ [] ∧
      (∀ ch ∈ d1, ch.isDigit = true) ∧ (c = 'x' ∨ c = 'X') ∧ d2 ≠ [] ∧
      (∀ ch ∈ d2, ch.isDigit = true) := by
  unfold matchCodeAt at h
  by_cases h1 : (cs.takeWhile Char.isDigit).isEmpty
  · simp [h1] at h
  · simp only [h1, if_false] at h
    rcases hdw : cs.dropWhile Char.isDigit with _ | ⟨c, r2⟩
    · rw [hdw] at h; simp at h
    · rw [hdw] at h
      by_cases hx : isX c
      · simp only [hx, if_true] at h
        by_cases h2 : (r2.takeWhile Char.isDigit).isEmpty
        · simp [h2] at h
        · have hpair : (cs.takeWhile Char.isDigit, r2.takeWhile Char.isDigit)
              = (d1, d2) := by
            simpa [h2] using h
          have hd1 : cs.takeWhile Char.isDigit = d1 := congrArg Prod.fst hpair
          have hd2 : r2.takeWhile Char.isDigit = d2 := congrArg Prod.snd hpair
          subst hd1
          subst hd2
          refine ⟨c, r2.dropWhile Char.isDigit, ?_, ?_, ?_, ?_, ?_, ?_⟩
          · conv_lhs => rw [← List.takeWhile_append_dropWhile Char.isDigit cs]
            rw [hdw]
            conv_lhs => rw [← List.takeWhile_append_dropWhile Char.isDigit r2]
          · intro hnil; simp [hnil] at h1
          · intro ch hch
            exact List.mem_takeWhile_imp hch
          · exact (isX_iff c).mp hx
          · intro hnil; simp [hnil] at h2
          · intro ch hch
            exact List.mem_takeWhile_imp hch
      · simp [hx] at h

/-- Completeness: an anchored decomposition forces a successful match. -/
lemma matchCodeAt_of_codeAt {cs : List Char} (h : CodeAt cs) :
    matchCodeAt cs ≠ none := by
  obtain ⟨d1, c, d2, rest, hcs, hd1ne, hd1, hc, hd2ne, hd2⟩ := h
  have hcd : c.isDigit = false := isDigit_of_isX hc
  have hstop := takeWhile_stops Char.isDigit d1 c (d2 ++ rest) hd1 hcd
  have htk2 := takeWhile_all_append Char.isDigit d2 rest hd2
  unfold matchCodeAt
  rw [hcs]
  rw [hstop.1, hstop.2]
  have h1 : d1.isEmpty = false := by
    cases d1 with
    | nil => exact absurd rfl hd1ne
    | cons a t => rfl
  simp only [h1, if_false]
  have hx : isX c = true := (isX_iff c).mpr hc
  simp only [hx, if_true]
  rw [htk2.1]
  have h2 : (d2 ++ rest.takeWhile Char.isDigit).isEmpty = false := by
    cases d2 with
    | nil => exact absurd rfl hd2ne
    | cons a t => rfl
  simp [h2]

lemma matchCodeAt_none_iff (cs : List Char) :
    matchCodeAt cs = none ↔ ¬ CodeAt cs := by
  constructor
  · intro hn hc
    exact matchCodeAt_of_codeAt hc hn
  · intro hnc
    rcases hm : matchCodeAt cs with _ | ⟨d1, d2⟩
    · rfl
    · obtain ⟨c, rest, hcs, h⟩ := matchCodeAt_some hm
      exact absurd ⟨d1, c, d2, rest, hcs, h⟩ hnc

lemma not_codeAt_nil : ¬ CodeAt [] := by
  rintro ⟨d1, c, d2, rest, hcs, hd1ne, -⟩
  cases d1 with
  | nil => simp at hcs
  | cons a t => simp at hcs

lemma scanCode_none_iff (cs : List Char) :
    scanCode cs = none ↔ ∀ i, ¬ CodeAt (cs.drop i) := by
  induction cs with
  | nil =>
    simp only [scanCode, List.drop_nil, true_iff]
    intro i
    exact not_codeAt_nil
  | cons c t ih =>
    constructor
    · intro h i
      unfold scanCode at h
      rcases hm : matchCodeAt (c :: t) with _ | p
      · rw [hm] at h
        cases i with
        | zero =>
          simpa using (matchCodeAt_none_iff (c :: t)).mp hm
        | succ j =>
          simpa using (ih.mp h) j
      · rw [hm] at h; simp at h
    · intro h
      unfold scanCode
      have h0 : matchCodeAt (c :: t) = none :=
        (matchCodeAt_none_iff (c :: t)).mpr (by simpa using h 0)
      rw [h0]
      exact ih.mpr (fun j => by simpa using h (j + 1))

lemma scanCode_some {cs : List Char} {d1 d2 : List Char}
    (h : scanCode cs = some (d1, d2)) :
    ∃ i, matchCodeAt (cs.drop i) = some (d1, d2) ∧
      ∀ j < i, ¬ CodeAt (cs.drop j) := by
  induction cs with
  | nil => simp [scanCode] at h
  | cons c t ih =>
    unfold scanCode at h
    rcases hm : matchCodeAt (c :: t) with _ | p
    · rw [hm] at h
      obtain ⟨i, hi, hfirst⟩ := ih h
      refine ⟨i + 1, by simpa using hi, ?_⟩
      intro j hj
      cases j with
      | zero => simpa using (matchCodeAt_none_iff (c :: t)).mp hm
      | succ k => simpa using hfirst k (by omega)
    · rw [hm] at h
      refine ⟨0, ?_, ?_⟩
      · simpa [hm] using h
      · intro j hj; omega

lemma sameEpisodeKey_refl (d : EpisodeRow) : sameEpisodeKey d d = true := by
  simp [sameEpisodeKey]

/-- C1 (counterexample): the monitor-path persistence is not an upsert.
With a row already stored under the natural key `(demon-slayer, 2, 5)`,
`saveEpisode` of different data under the same key leaves the old row in
place (its pre-check short-circuits the write), while the keyed upsert
offered by the store, as used by `upsertEpisode`, would replace it; so
episode persistence on the monitor path is enforced by pre-checking
existence and plain insert, not by upsert semantics. -/
theorem saveEpisode_precheck_not_upsert_cex :
    (saveEpisode [⟨"demon-slayer", 2, 5, "old", "t1", []⟩]
        ⟨"demon-slayer", 2, 5, "new", "t2", ["s1"]⟩).1
      = [⟨"demon-slayer", 2, 5, "old", "t1", []⟩] ∧
    upsertEpisode [⟨"demon-slayer", 2, 5, "old", "t1", []⟩]
        ⟨"demon-slayer", 2, 5, "new", "t2", ["s1"]⟩
      = [⟨"demon-slayer", 2, 5, "new", "t2", ["s1"]⟩] ∧
    (saveEpisode [⟨"demon-slayer", 2, 5, "old", "t1", []⟩]
        ⟨"demon-slayer", 2, 5, "new", "t2", ["s1"]⟩).1
      ≠ upsertEpisode [⟨"demon-slayer", 2, 5, "old", "t1", []⟩]
          ⟨"demon-slayer", 2, 5, "new", "t2", ["s1"]⟩ := by
  decide

/-- C1 (amended): saving the same episode data twice leaves the episodes
table identical to saving it once, on both persistence paths; the monitor
path `saveEpisode` achieves this by pre-checking existence and writing
nothing when the key is present, while the scraper path `upsertEpisode` is
a genuine keyed upsert: after it runs, every row under the key equals the
new data and the new data is stored. -/
theorem saveEpisode_upsertEpisode_idempotent (table : List EpisodeRow)
    (d : EpisodeRow) :
    (saveEpisode (saveEpisode table d).1 d).1 = (saveEpisode table d).1 ∧
    upsertEpisode (upsertEpisode table d) d = upsertEpisode table d ∧
    (table.any (fun r => sameEpisodeKey r d) = true →
      saveEpisode table d = (table, false)) ∧
    (∀ r ∈ upsertEpisode table d, sameEpisodeKey r d = true → r = d) ∧
    d ∈ upsertEpisode table d := by
  by_cases h : table.any (fun r => sameEpisodeKey r d) = true
  · refine ⟨?_, ?_, ?_, ?_, ?_⟩
    · simp [saveEpisode, h]
    · have hmap : upsertEpisode table d
          = table.map (fun r => if sameEpisodeKey r d then d else r) := by
        simp [upsertEpisode, upsertByKey, h]
      obtain ⟨r0, hr0, hk0⟩ := List.any_eq_true.mp h
      have hmem : d ∈ table.map (fun r => if sameEpisodeKey r d then d else r) := by
        refine List.mem_map.mpr ⟨r0, hr0, ?_⟩
        simp [hk0]
      have h2 : (table.map (fun r => if sameEpisodeKey r d then d else r)).any
          (fun r => sameEpisodeKey r d) = true :=
        List.any_eq_true.mpr ⟨d, hmem, sameEpisodeKey_refl d⟩
      rw [hmap]
      simp only [upsertEpisode, upsertByKey, h2, if_true]
      rw [List.map_map]
      apply List.map_congr_left
      intro r _
      by_cases hk : sameEpisodeKey r d = true
      · simp [hk, sameEpisodeKey_refl]
      · simp [hk]
    · intro _; simp [saveEpisode, h]
    · intro r hr hk
      have hmap : upsertEpisode table d
          = table.map (fun r => if sameEpisodeKey r d then d else r) := by
        simp [upsertEpisode, upsertByKey, h]
      rw [hmap] at hr
      obtain ⟨r0, _, hr0e⟩ := List.mem_map.mp hr
      by_cases hk0 : sameEpisodeKey r0 d = true
      · rw [← hr0e]; simp [hk0]
      · rw [← hr0e] at hk
        simp [hk0] at hk
    · have hmap : upsertEpisode table d
          = table.map (fun r => if sameEpisodeKey r d then d else r) := by
        simp [upsertEpisode, upsertByKey, h]
      obtain ⟨r0, hr0, hk0⟩ := List.any_eq_true.mp h
      rw [hmap]
      refine List.mem_map.mpr ⟨r0, hr0, ?_⟩
      simp [hk0]
  · have h' : table.any (fun r => sameEpisodeKey r d) = false := by
      simpa using h
    have hall : ∀ r ∈ table, sameEpisodeKey r d = false := by
      intro r hr
      by_contra hne
      exact h (List.any_eq_true.mpr ⟨r, hr, by simpa using hne⟩)
    refine ⟨?_, ?_, ?_, ?_, ?_⟩
    · have h2 : (table ++ [d]).any (fun r => sameEpisodeKey r d) = true :=
        List.any_eq_true.mpr ⟨d, by simp, sameEpisodeKey_refl d⟩
      simp [saveEpisode, h', h2]
    · have happ : upsertEpisode table d = table ++ [d] := by
        simp [upsertEpisode, upsertByKey, h']
      have h2 : (table ++ [d]).any (fun r => sameEpisodeKey r d) = true :=
        List.any_eq_true.mpr ⟨d, by simp, sameEpisodeKey_refl d⟩
      rw [happ]
      simp only [upsertEpisode, upsertByKey, h2, if_true]
      rw [List.map_append]
      have e1 : table.map (fun r => if sameEpisodeKey r d then d else r)
          = table.map id :=
        List.map_congr_left (fun r hr => by simp [hall r hr])
      have e2 : [d].map (fun r => if sameEpisodeKey r d then d else r) = [d] := by
        simp [sameEpisodeKey_refl]
      rw [e1, List.map_id, e2]
    · intro hc; rw [hc] at h'; simp at h'
    · intro r hr hk
      have happ : upsertEpisode table d = table ++ [d] := by
        simp [upsertEpisode, upsertByKey, h']
      rw [happ] at hr
      rcases List.mem_append.mp hr with hmem | hmem
      · exact absurd hk (by simp [hall r hmem])
      · simpa using hmem
    · have happ : upsertEpisode table d = table ++ [d] := by
        simp [upsertEpisode, upsertByKey, h']
      rw [happ]
      simp

/-- C1 (witness): applying the idempotence theorem at a one-row table whose
key matches the incoming data. -/
theorem saveEpisode_upsertEpisode_idempotent_witness :
    ([⟨"foo", 1, 1, "t", "", []⟩] : List EpisodeRow).any
        (fun r => sameEpisodeKey r ⟨"foo", 1, 1, "t2", "x", []⟩) = true ∧
    saveEpisode [⟨"foo", 1, 1, "t", "", []⟩] ⟨"foo", 1, 1, "t2", "x", []⟩
      = ([⟨"foo", 1, 1, "t", "", []⟩], false) ∧
    (⟨"foo", 1, 1, "t2", "x", []⟩ : EpisodeRow)
      ∈ upsertEpisode [⟨"foo", 1, 1, "t", "", []⟩] ⟨"foo", 1, 1, "t2", "x", []⟩ :=
  ⟨by decide,
   (saveEpisode_upsertEpisode_idempotent
      [⟨"foo", 1, 1, "t", "", []⟩] ⟨"foo", 1, 1, "t2", "x", []⟩).2.2.1 (by decide),
   (saveEpisode_upsertEpisode_idempotent
      [⟨"foo", 1, 1, "t", "", []⟩] ⟨"foo", 1, 1, "t2", "x", []⟩).2.2.2.2⟩

lemma getNextProxyGo_allFailed (fuel : Nat) :
    ∀ st : ProxyState, (∀ p ∈ st.proxies, p ∈ st.failedProxies) →
      st.currentIndex < st.proxies.length →
      (getNextProxyGo fuel st).1 = none ∧
      (getNextProxyGo fuel st).2.proxies = st.proxies ∧
      (getNextProxyGo fuel st).2.failedProxies = st.failedProxies := by
  induction fuel with
  | zero => intro st h hc; simp [getNextProxyGo]
  | succ n ih =>
    intro st h hc
    have hlen : 0 < st.proxies.length := Nat.lt_of_le_of_lt (Nat.zero_le _) hc
    have hmem : st.proxies.getD st.currentIndex "" ∈ st.proxies := by
      rw [List.getD_eq_getElem st.proxies "" hc]
      exact List.getElem_mem hc
    have hfail : st.failedProxies.any
        (fun q => q == st.proxies.getD st.currentIndex "") = true :=
      List.any_eq_true.mpr ⟨_, h _ hmem, by simp⟩
    have hstep : getNextProxyGo (n + 1) st = getNextProxyGo n
        { st with currentIndex := (st.currentIndex + 1) % st.proxies.length } := by
      simp only [getNextProxyGo, hfail, if_true]
    rw [hstep]
    exact ih _ (fun p hp => h p hp) (Nat.mod_lt _ hlen)

/-- C3: `getNextProxy` returns null exactly when no proxies are configured
(first two parts), and when every configured proxy is quarantined it clears
the quarantine set and returns the first proxy of the configured list. -/
theorem proxy_pool_next_spec (st : ProxyState) :
    (st.proxies = [] → getNextProxy st = (none, st)) ∧
    (st.proxies ≠ [] → ((getNextProxy st).1).isSome = true) ∧
    (st.proxies ≠ [] → st.currentIndex < st.proxies.length →
      (∀ p ∈ st.proxies, p ∈ st.failedProxies) →
      (getNextProxy st).1 = some (st.proxies.getD 0 "") ∧
      (getNextProxy st).2.failedProxies = []) := by
  refine ⟨?_, ?_, ?_⟩
  · intro h
    simp [getNextProxy, h]
  · intro h
    have hne : st.proxies.isEmpty = false := by
      simpa [List.isEmpty_iff] using h
    unfold getNextProxy
    rcases hgo : getNextProxyGo st.proxies.length st with ⟨o, st'⟩
    cases o <;> simp [hne, hgo]
  · intro h hc hall
    have hne : st.proxies.isEmpty = false := by
      simpa [List.isEmpty_iff] using h
    have hgo := getNextProxyGo_allFailed st.proxies.length st hall hc
    unfold getNextProxy
    rcases hres : getNextProxyGo st.proxies.length st with ⟨o, st'⟩
    rw [hres] at hgo
    cases o with
    | some p => simp at hgo
    | none => simp [hne, hres, hgo.2.2]

/-- C3 (witness): three proxies, all quarantined; the next call returns the
first proxy again and empties the quarantine set. -/
theorem proxy_pool_next_spec_witness :
    ((["p1", "p2", "p3"] : List String) ≠ []) ∧
    (getNextProxy ⟨["p1", "p2", "p3"], 0, ["p1", "p2", "p3"]⟩).1 = some "p1" ∧
    (getNextProxy ⟨["p1", "p2", "p3"], 0, ["p1", "p2", "p3"]⟩).2.failedProxies
      = [] := by
  refine ⟨by decide, ?_, ?_⟩
  · exact ((proxy_pool_next_spec ⟨["p1", "p2", "p3"], 0,
      ["p1", "p2", "p3"]⟩).2.2 (by decide) (by decide) (by decide)).1
  · exact ((proxy_pool_next_spec ⟨["p1", "p2", "p3"], 0,
      ["p1", "p2", "p3"]⟩).2.2 (by decide) (by decide) (by decide)).2

lemma fetchFrom_succ (attempt : Nat → Except String String) (i rem : Nat)
    (last : Option String) :
    fetchFrom attempt i (rem + 1) last =
      match attempt i with
      | Except.ok body => (Except.ok body, 1)
      | Except.error e =>
        let r := fetchFrom attempt (i + 1) rem (some e)
        (r.1, r.2 + 1) := rfl

lemma fetchFrom_count_le (attempt : Nat → Except String String) :
    ∀ rem i last, (fetchFrom attempt i rem last).2 ≤ rem := by
  intro rem
  induction rem with
  | zero => intro i last; simp [fetchFrom]
  | succ n ih =>
    intro i last
    rw [fetchFrom_succ]
    cases ha : attempt i with
    | ok b => simp [ha]
    | error e =>
      simp only [ha]
      have := ih (i + 1) (some e)
      simpa using Nat.succ_le_succ this

lemma fetchFrom_first_success (attempt : Nat → Except String String) :
    ∀ k i rem last b, k < rem →
      (∀ j < k, ∃ e, attempt (i + j) = Except.error e) →
      attempt (i + k) = Except.ok b →
      fetchFrom attempt i rem last = (Except.ok b, k + 1) := by
  intro k
  induction k with
  | zero =>
    intro i rem last b hk hprev hok
    obtain ⟨n, rfl⟩ : ∃ n, rem = n + 1 := ⟨rem - 1, by omega⟩
    rw [fetchFrom_succ]
    simp only [Nat.add_zero] at hok
    rw [hok]
  | succ m ih =>
    intro i rem last b hk hprev hok
    obtain ⟨n, rfl⟩ : ∃ n, rem = n + 1 := ⟨rem - 1, by omega⟩
    obtain ⟨e0, he0⟩ := hprev 0 (Nat.succ_pos m)
    simp only [Nat.add_zero] at he0
    rw [fetchFrom_succ, he0]
    have hrec := ih (i + 1) n (some e0) b (by omega)
      (fun j hj => by
        obtain ⟨e, he⟩ := hprev (j + 1) (by omega)
        refine ⟨e, ?_⟩
        have hidx : i + 1 + j = i + (j + 1) := by omega
        rw [hidx]; exact he)
      (by
        have hidx : i + 1 + m = i + (m + 1) := by omega
        rw [hidx]; exact hok)
    simp [hrec]

lemma fetchFrom_all_fail (attempt : Nat → Except String String) :
    ∀ rem i last e, 0 < rem →
      (∀ j < rem, ∃ er, attempt (i + j) = Except.error er) →
      attempt (i + rem - 1) = Except.error e →
      (fetchFrom attempt i rem last).1 = Except.error (some e) := by
  intro rem
  induction rem with
  | zero => intro i last e h _ _; exact absurd h (Nat.lt_irrefl 0)
  | succ n ih =>
    intro i last e hpos hall hlast
    obtain ⟨e0, he0⟩ := hall 0 (Nat.succ_pos n)
    simp only [Nat.add_zero] at he0
    rw [fetchFrom_succ, he0]
    by_cases hn : n = 0
    · subst hn
      have hi : attempt i = Except.error e := by
        simpa using hlast
      have : e0 = e := by
        rw [hi] at he0
        exact Except.error.inj he0.symm
      simp [fetchFrom, this]
    · have hn' : 0 < n := Nat.pos_of_ne_zero hn
      have hrec := ih (i + 1) (some e0) e hn'
        (fun j hj => by
          obtain ⟨er, her⟩ := hall (j + 1) (by omega)
          refine ⟨er, ?_⟩
          have hidx : i + 1 + j = i + (j + 1) := by omega
          rw [hidx]; exact her)
        (by
          have hidx : i + 1 + n - 1 = i + (n + 1) - 1 := by omega
          rw [hidx]; exact hlast)
      simp [hrec]

/-- C2: the scraper fetch makes at most `retries * max(1, proxyCount)`
attempts (the budget formula of the code equals the one of the spec), the
body of the first successful attempt is returned immediately with no
further attempts, and when every attempt in the budget fails the call fails
carrying the last underlying error; the fetch-utils variant used by the
monitor is the same loop with a budget of `retries` attempts, which is the
formula at `proxyCount = 0`. -/
theorem fetch_retry_budget_spec (retries proxyCount : Nat)
    (attempt : Nat → Except String String) :
    (totalAttempts retries proxyCount = retries * Nat.max 1 proxyCount) ∧
    ((fetchHtmlWithRetryScraper retries proxyCount attempt).2
      ≤ totalAttempts retries proxyCount) ∧
    (∀ k b, k < totalAttempts retries proxyCount →
      (∀ j < k, ∃ e, attempt (1 + j) = Except.error e) →
      attempt (1 + k) = Except.ok b →
      fetchHtmlWithRetryScraper retries proxyCount attempt
        = (Except.ok b, k + 1)) ∧
    (∀ e, 0 < totalAttempts retries proxyCount →
      (∀ j < totalAttempts retries proxyCount, ∃ er,
        attempt (1 + j) = Except.error er) →
      attempt (totalAttempts retries proxyCount) = Except.error e →
      (fetchHtmlWithRetryScraper retries proxyCount attempt).1
        = Except.error (some e)) ∧
    fetchHtmlWithRetrySimple retries attempt
      = fetchHtmlWithRetryScraper retries 0 attempt := by
  refine ⟨?_, ?_, ?_, ?_, ?_⟩
  · unfold totalAttempts
    cases proxyCount with
    | zero => simp
    | succ p => simp
  · exact fetchFrom_count_le attempt (totalAttempts retries proxyCount) 1 none
  · intro k b hk hprev hok
    exact fetchFrom_first_success attempt k 1
      (totalAttempts retries proxyCount) none b hk hprev hok
  · intro e hpos hall hlast
    apply fetchFrom_all_fail attempt (totalAttempts retries proxyCount) 1
      none e hpos hall
    have hidx : 1 + totalAttempts retries proxyCount - 1
        = totalAttempts retries proxyCount := by omega
    rw [hidx]; exact hlast
  · unfold fetchHtmlWithRetrySimple fetchHtmlWithRetryScraper totalAttempts
    simp

/-- C2 (witness): with 3 retries and 2 proxies the budget is 6; an oracle
failing on attempt 1 and succeeding on attempt 2 stops after 2 attempts
with the successful body; an oracle that always fails exhausts a budget of
1 and the error carries the last underlying message. -/
theorem fetch_retry_budget_spec_witness :
    (1 < totalAttempts 3 2) ∧
    fetchHtmlWithRetryScraper 3 2
        (fun i => if i = 2 then Except.ok "body" else Except.error "boom")
      = (Except.ok "body", 2) ∧
    (fetchHtmlWithRetryScraper 1 0 (fun _ => Except.error "boom")).1
      = Except.error (some "boom") := by
  refine ⟨by decide, ?_, ?_⟩
  · exact (fetch_retry_budget_spec 3 2
      (fun i => if i = 2 then Except.ok "body" else Except.error "boom")).2.2.1
      1 "body" (by decide)
      (fun j hj => ⟨"boom", by
        have hj0 : j = 0 := by omega
        subst hj0
        rfl⟩)
      rfl
  · exact (fetch_retry_budget_spec 1 0 (fun _ => Except.error "boom")).2.2.2.1
      "boom" (by decide) (fun j hj => ⟨"boom", rfl⟩) rfl

/-- C9 (counterexample): the same failing card, run through both loops.
In monitor.js the dedup key is not added when a step throws.  In
monitoring-service.js `scrapeEpisode` swallows its own errors and returns
null, so that loop adds the key `foo_1_1` to the processed set even though
every step of the scrape failed; the failed card is then never retried on a
later cycle, contradicting the claim for that loop. -/
theorem service_poll_adds_failed_card_cex :
    servicePollCard (fun _ => Except.error "fetch exhausted") []
        ⟨"Foo 1x1", "https://toonstream.love/episode/foo-1x1/", none⟩
      = ["foo_1_1"] ∧
    processEpisodeCard (fun _ => Except.error "fetch exhausted") []
        ⟨"Foo 1x1", "https://toonstream.love/episode/foo-1x1/", none⟩
      = [] := by
  constructor
  · rfl
  · rfl

/-- C9 (amended): in monitor.js `processEpisodeCard` the episode key enters
the Dedup Cache only after every step succeeded: any failing step leaves
the processed set unchanged, a successful unseen card adds exactly its key,
and the enclosing fold always continues with the remaining cards.  In the
monitoring-service.js loop, by contrast, the key is added for every unseen
card with a parseable key regardless of the scrape outcome, because
`scrapeEpisode` never rejects. -/
theorem dedup_insert_only_on_success (step : String → Except String Unit)
    (processed : List String) (card : MonitorCard) (cards : List MonitorCard) :
    (∀ e, step card.url = Except.error e →
      processEpisodeCard step processed card = processed) ∧
    ((parseEpisodeCode card.url).isSome = true → card.url ∉ processed →
      step card.url = Except.ok () →
      processEpisodeCard step processed card = card.url :: processed) ∧
    (monitorPollCards step processed (card :: cards)
      = monitorPollCards step (processEpisodeCard step processed card) cards) ∧
    (∀ key, createEpisodeKey card.url = some key → key ∉ processed →
      servicePollCard step processed card = key :: processed) := by
  refine ⟨?_, ?_, rfl, ?_⟩
  · intro e he
    unfold processEpisodeCard
    cases hp : parseEpisodeCode card.url with
    | none => rfl
    | some code =>
      by_cases hmem : card.url ∈ processed
      · simp [hmem]
      · simp [hmem, he]
  · intro hsome hmem hok
    unfold processEpisodeCard
    cases hp : parseEpisodeCode card.url with
    | none => rw [hp] at hsome; simp at hsome
    | some code => simp [hmem, hok]
  · intro key hkey hmem
    unfold servicePollCard
    rw [hkey]
    simp [hmem]

/-- C9 (witness): a concretely succeeding card has its key added by the
monitor loop, and a concrete unseen key is added by the service loop. -/
theorem dedup_insert_only_on_success_witness :
    processEpisodeCard (fun _ => Except.ok ()) []
        ⟨"Foo 1x1", "https://toonstream.love/episode/foo-1x1/", none⟩
      = ["https://toonstream.love/episode/foo-1x1/"] ∧
    servicePollCard (fun _ => Except.ok ()) ["other"]
        ⟨"Foo 1x1", "https://toonstream.love/episode/foo-1x1/", none⟩
      = ["foo_1_1", "other"] := by
  constructor
  · exact (dedup_insert_only_on_success (fun _ => Except.ok ()) []
      ⟨"Foo 1x1", "https://toonstream.love/episode/foo-1x1/", none⟩ []).2.1
      (by decide) (by decide) rfl
  · exact (dedup_insert_only_on_success (fun _ => Except.ok ()) ["other"]
      ⟨"Foo 1x1", "https://toonstream.love/episode/foo-1x1/", none⟩ []).2.2.2
      "foo_1_1" (by decide) (by decide)

/-- C6: for every URL the parser accepts whose last path segment is
`demon-slayer-2x5`, the URL-derived fallback identity taken by monitor.js
when breadcrumb resolution fails is slug `demon-slayer` (the trailing
`-2x5` code suffix stripped) and title `Demon Slayer` (title-cased
hyphen-separated words of the slug). -/
theorem derive_identity_demon_slayer (url : String) (u : JsUrl)
    (hu : jsUrlOfString url = some u)
    (hlast : (pathParts u.pathname).getLast? = some "demon-slayer-2x5") :
    monitorFallbackIdentity url = ("demon-slayer", "Demon Slayer") := by
  have h1 : deriveSeriesSlugFromEpisodeUrl url = "demon-slayer" := by
    simp only [deriveSeriesSlugFromEpisodeUrl, jsUrlOfString] at hu ⊢
    simp only [hu, hlast]
    decide
  unfold monitorFallbackIdentity
  rw [h1]
  decide

/-- C6 (witness): the concrete detail URL of the claim. -/
theorem derive_identity_demon_slayer_witness :
    jsUrlOfString "https://toonstream.love/episode/demon-slayer-2x5/"
      = some ⟨"https", some "toonstream.love", "/episode/demon-slayer-2x5/", ""⟩ ∧
    monitorFallbackIdentity "https://toonstream.love/episode/demon-slayer-2x5/"
      = ("demon-slayer", "Demon Slayer") := by
  constructor
  · decide
  · exact derive_identity_demon_slayer _
      ⟨"https", some "toonstream.love", "/episode/demon-slayer-2x5/", ""⟩
      (by decide) (by decide)

lemma scanCode_eq_none_iff_not_hasCode (s : String) :
    scanCode s.data = none ↔ ¬ HasCode s := by
  rw [scanCode_none_iff]
  unfold HasCode
  exact not_exists.symm

/-- C10: `deriveSeriesSlugFromEpisodeUrl` is total by construction; its
result is always `unknown` or derived from the last path segment; an input
the URL parser rejects yields the literal slug `unknown`; and when the last
path segment contains no `<digits>x<digits>` code the segment is returned
unchanged. -/
theorem derive_slug_total_fallbacks (url : String) :
    (deriveSeriesSlugFromEpisodeUrl url = "unknown" ∨
      ∃ u seg, jsUrlOfString url = some u ∧
        (pathParts u.pathname).getLast? = some seg) ∧
    (jsUrlOfString url = none →
      deriveSeriesSlugFromEpisodeUrl url = "unknown") ∧
    (∀ u seg, jsUrlOfString url = some u →
      (pathParts u.pathname).getLast? = some seg → ¬ HasCode seg →
      deriveSeriesSlugFromEpisodeUrl url = seg) := by
  refine ⟨?_, ?_, ?_⟩
  · cases hu : jsUrlOfString url with
    | none => left; simp [deriveSeriesSlugFromEpisodeUrl, hu]
    | some u =>
      cases hl : (pathParts u.pathname).getLast? with
      | none => left; simp [deriveSeriesSlugFromEpisodeUrl, hu, hl]
      | some seg => right; exact ⟨u, seg, rfl, hl⟩
  · intro hu
    simp [deriveSeriesSlugFromEpisodeUrl, hu]
  · intro u seg hu hl hnc
    have hscan : scanCode seg.data = none :=
      (scanCode_eq_none_iff_not_hasCode seg).mpr hnc
    simp [deriveSeriesSlugFromEpisodeUrl, hu, hl, hscan]

/-- C10 (witness): an unparseable input yields `unknown`; a URL whose last
segment `naruto` has no episode code yields that segment unchanged. -/
theorem derive_slug_total_fallbacks_witness :
    jsUrlOfString "not a url" = none ∧
    deriveSeriesSlugFromEpisodeUrl "not a url" = "unknown" ∧
    ¬ HasCode "naruto" ∧
    deriveSeriesSlugFromEpisodeUrl "https://toonstream.love/anime/naruto/"
      = "naruto" := by
  have hnc : ¬ HasCode "naruto" := by
    rw [← scanCode_eq_none_iff_not_hasCode]
    decide
  refine ⟨by decide, (derive_slug_total_fallbacks "not a url").2.1 (by decide),
    hnc, ?_⟩
  exact (derive_slug_total_fallbacks
      "https://toonstream.love/anime/naruto/").2.2
    ⟨"https", some "toonstream.love", "/anime/naruto/", ""⟩ "naruto"
    (by decide) (by decide) hnc

/-- C5 (counterexample): the digit runs of the pattern may be all zeros, so
the parsed pair is not always a pair of positive integers: a URL containing
`0x5` parses to season 0, which is not positive. -/
theorem parseEpisodeCode_zero_season_cex :
    parseEpisodeCode "https://toonstream.love/episode/zed-0x5/"
      = some ⟨0, 5⟩ ∧
    (∀ code, parseEpisodeCode "https://toonstream.love/episode/zed-0x5/"
      = some code → ¬ 0 < code.season) := by
  constructor
  · decide
  · intro code hc
    have h0 : parseEpisodeCode "https://toonstream.love/episode/zed-0x5/"
        = some ⟨0, 5⟩ := by decide
    rw [h0] at hc
    rw [← Option.some.inj hc]
    decide

/-- C5 (amended): `parseEpisodeCode` returns the season and episode parsed
from the first case-insensitive `<digits>x<digits>` substring of the URL as
a pair of nonnegative integers (the example `3x07` yields season 3 and
episode 7), and returns null exactly when no such substring exists; a
successful parse exhibits a matching decomposition whose digit runs give
the returned values, with no match starting at any earlier position. -/
theorem parseEpisodeCode_first_match_spec (url : String) :
    (parseEpisodeCode "https://toonstream.love/episode/demo-3x07/"
      = some ⟨3, 7⟩) ∧
    (parseEpisodeCode url = none ↔ ¬ HasCode url) ∧
    (∀ code, parseEpisodeCode url = some code →
      ∃ i d1 c d2 rest, url.data.drop i = d1 ++ c :: (d2 ++ rest) ∧
        d1 ≠ [] ∧ (∀ ch ∈ d1, ch.isDigit = true) ∧ (c = 'x' ∨ c = 'X') ∧
        d2 ≠ [] ∧ (∀ ch ∈ d2, ch.isDigit = true) ∧
        code.season = digitsToNat d1 ∧ code.episode = digitsToNat d2 ∧
        (∀ j < i, ¬ CodeAt (url.data.drop j))) := by
  refine ⟨by decide, ?_, ?_⟩
  · unfold parseEpisodeCode
    cases hs : scanCode url.data with
    | none =>
      constructor
      · intro _
        exact (scanCode_eq_none_iff_not_hasCode url).mp hs
      · intro _
        rfl
    | some p =>
      rcases p with ⟨d1, d2⟩
      constructor
      · intro h
        exact absurd h (by simp)
      · intro hnc
        have hn := (scanCode_eq_none_iff_not_hasCode url).mpr hnc
        rw [hs] at hn
        exact absurd hn (by simp)
  · intro code hc
    unfold parseEpisodeCode at hc
    cases hs : scanCode url.data with
    | none =>
      rw [hs] at hc
      simp at hc
    | some p =>
      rcases p with ⟨d1, d2⟩
      rw [hs] at hc
      have hcode : code = ⟨digitsToNat d1, digitsToNat d2⟩ :=
        (Option.some.inj
          (show some (⟨digitsToNat d1, digitsToNat d2⟩ : EpisodeCode)
              = some code from hc)).symm
      obtain ⟨i, hm, hfirst⟩ := scanCode_some hs
      obtain ⟨c, rest, hdec, hne1, hdig1, hx, hne2, hdig2⟩ := matchCodeAt_some hm
      exact ⟨i, d1, c, d2, rest, hdec, hne1, hdig1, hx, hne2, hdig2,
        by rw [hcode], by rw [hcode], hfirst⟩

/-- C5 (witness): the decomposition of the successful parse of
`demo-3x07`. -/
theorem parseEpisodeCode_first_match_spec_witness :
    parseEpisodeCode "demo-3x07" = some ⟨3, 7⟩ ∧
    (∃ i d1 c d2 rest, "demo-3x07".data.drop i = d1 ++ c :: (d2 ++ rest) ∧
      d1 ≠ [] ∧ (∀ ch ∈ d1, ch.isDigit = true) ∧ (c = 'x' ∨ c = 'X') ∧
      d2 ≠ [] ∧ (∀ ch ∈ d2, ch.isDigit = true) ∧
      (⟨3, 7⟩ : EpisodeCode).season = digitsToNat d1 ∧
      (⟨3, 7⟩ : EpisodeCode).episode = digitsToNat d2 ∧
      (∀ j < i, ¬ CodeAt ("demo-3x07".data.drop j))) := by
  constructor
  · decide
  · exact (parseEpisodeCode_first_match_spec "demo-3x07").2.2 ⟨3, 7⟩ (by decide)

lemma addFallbackEmbeds_spec :
    ∀ (fs : List IframeEl) (acc : List ServerEmbed),
      ∃ added, addFallbackEmbeds acc fs = acc ++ added ∧
        (∀ e ∈ added, e.option = none ∧
          (∃ f ∈ fs, iframeUrl f = some e.url) ∧
          (∀ e' ∈ acc, e'.url ≠ e.url)) ∧
        (added.map (fun e => e.url)).Nodup := by
  intro fs
  induction fs with
  | nil =>
    intro acc
    exact ⟨[], by simp [addFallbackEmbeds], by simp, by simp⟩
  | cons f fs ih =>
    intro acc
    cases hu : iframeUrl f with
    | none =>
      obtain ⟨added, heq, hprops, hnd⟩ := ih acc
      refine ⟨added, ?_, ?_, hnd⟩
      · simp only [addFallbackEmbeds, hu]
        exact heq
      · intro e he
        obtain ⟨ho, ⟨f', hf', hfu⟩, hacc⟩ := hprops e he
        exact ⟨ho, ⟨f', List.mem_cons_of_mem f hf', hfu⟩, hacc⟩
    | some u =>
      by_cases hany : acc.any (fun e => e.url == u) = true
      · obtain ⟨added, heq, hprops, hnd⟩ := ih acc
        refine ⟨added, ?_, ?_, hnd⟩
        · simp only [addFallbackEmbeds, hu, hany, if_true]
          exact heq
        · intro e he
          obtain ⟨ho, ⟨f', hf', hfu⟩, hacc⟩ := hprops e he
          exact ⟨ho, ⟨f', List.mem_cons_of_mem f hf', hfu⟩, hacc⟩
      · have hany' : acc.any (fun e => e.url == u) = false := by
          simpa using hany
        have hnotin : ∀ e' ∈ acc, e'.url ≠ u := by
          intro e' he' hequ
          have : acc.any (fun e => e.url == u) = true :=
            List.any_eq_true.mpr ⟨e', he', by simp [hequ]⟩
          rw [this] at hany'
          exact Bool.noConfusion hany'
        obtain ⟨added, heq, hprops, hnd⟩ := ih (acc ++ [⟨none, u⟩])
        refine ⟨⟨none, u⟩ :: added, ?_, ?_, ?_⟩
        · simp only [addFallbackEmbeds, hu, hany', if_false]
          rw [heq, List.append_assoc]
          rfl
        · intro e he
          rcases List.mem_cons.mp he with rfl | he'
          · exact ⟨rfl, ⟨f, by simp, hu⟩, hnotin⟩
          · obtain ⟨ho, ⟨f', hf', hfu⟩, hacc2⟩ := hprops e he'
            refine ⟨ho, ⟨f', List.mem_cons_of_mem f hf', hfu⟩, ?_⟩
            intro e' he'a
            exact hacc2 e' (by simp [he'a])
        · rw [List.map_cons]
          refine List.nodup_cons.mpr ⟨?_, hnd⟩
          intro hmem
          obtain ⟨e, he, heu⟩ := List.mem_map.mp hmem
          obtain ⟨-, -, hacc2⟩ := hprops e he
          exact hacc2 ⟨none, u⟩ (by simp) (by simpa using heu.symm)

/-- C8 (amended, for the scraper path): `extractIframeEmbeds` is the
numbered-container pass followed by the supplementary whole-page pass; every
supplementary entry carries a null option index, stems from an iframe on
the page, has a resolved URL not already collected by the container pass,
and the supplementary URLs are mutually distinct; every container-pass
entry is tagged with the index of a present container in 1..20 holding an
iframe that resolves to its URL. -/
theorem extractIframeEmbeds_spec (p : EpisodePage) :
    (∃ added, extractIframeEmbeds p = optionPassEmbeds p ++ added ∧
      (∀ e ∈ added, e.option = none ∧
        (∃ f ∈ p.allIframes, iframeUrl f = some e.url) ∧
        (∀ e' ∈ optionPassEmbeds p, e'.url ≠ e.url)) ∧
      (added.map (fun e => e.url)).Nodup) ∧
    (∀ e ∈ optionPassEmbeds p, ∃ i fs f, 1 ≤ i ∧ i ≤ 20 ∧
      optLookup p i = some fs ∧ f ∈ fs ∧ iframeUrl f = some e.url ∧
      e.option = some i) := by
  constructor
  · exact addFallbackEmbeds_spec p.allIframes (optionPassEmbeds p)
  · intro e he
    unfold optionPassEmbeds at he
    obtain ⟨i, hi, he2⟩ := List.mem_flatMap.mp he
    have hrange : 1 ≤ i ∧ i < 1 + 20 := List.mem_range'_1.mp hi
    cases hlk : optLookup p i with
    | none =>
      rw [hlk] at he2
      simp at he2
    | some frames =>
      rw [hlk] at he2
      obtain ⟨f, hf, hfe⟩ := List.mem_filterMap.mp he2
      cases hu : iframeUrl f with
      | none =>
        rw [hu] at hfe
        simp at hfe
      | some u =>
        rw [hu] at hfe
        have he3 : (⟨some i, u⟩ : ServerEmbed) = e := Option.some.inj hfe
        subst he3
        exact ⟨i, frames, f, hrange.1, by omega, hlk, hf, hu, rfl⟩

/-- C8 (counterexample): a page with one iframe inside container options-1
and one further iframe elsewhere.  The scraper collector returns the two
option-tagged pairs of the claim, but the monitor service servers list is a
list of raw source strings from the numbered containers only: it has no
option tags and misses the supplementary iframe, so the claim fails for
the EpisodeRecords produced by monitor.js. -/
theorem monitor_servers_missing_fallback_cex :
    extractIframeEmbeds
        ⟨[(1, [⟨some "https://a.example/e1", none⟩])],
         [⟨some "https://a.example/e1", none⟩,
          ⟨some "https://b.example/e2", none⟩]⟩
      = [⟨some 1, "https://a.example/e1"⟩, ⟨none, "https://b.example/e2"⟩] ∧
    monitorCollectServers
        ⟨[(1, [⟨some "https://a.example/e1", none⟩])],
         [⟨some "https://a.example/e1", none⟩,
          ⟨some "https://b.example/e2", none⟩]⟩
      = ["https://a.example/e1"] ∧
    monitorCollectServers
        ⟨[(1, [⟨some "https://a.example/e1", none⟩])],
         [⟨some "https://a.example/e1", none⟩,
          ⟨some "https://b.example/e2", none⟩]⟩
      ≠ (extractIframeEmbeds
        ⟨[(1, [⟨some "https://a.example/e1", none⟩])],
         [⟨some "https://a.example/e1", none⟩,
          ⟨some "https://b.example/e2", none⟩]⟩).map (fun e => e.url) := by
  refine ⟨by decide, by decide, by decide⟩

lemma extractCardsGo_map_url :
    ∀ (anchors : List Anchor) (seen : List String),
      (extractCardsGo anchors seen).map (fun c => c.url)
        = (dedupFrom (gauntletHrefs anchors) seen).map some := by
  intro anchors
  induction anchors with
  | nil => intro seen; simp [extractCardsGo, gauntletHrefs, dedupFrom]
  | cons a rest ih =>
    intro seen
    cases hn : normalizeUrl a.href with
    | none =>
      simp only [extractCardsGo, hn, gauntletHrefs, List.filterMap_cons]
      exact ih seen
    | some h =>
      cases hm : matchesSectionPattern h with
      | false =>
        have hg : gauntletB h = false := by simp [gauntletB, hm]
        simp only [extractCardsGo, hn, hm, Bool.not_false, if_true,
          gauntletHrefs, List.filterMap_cons, hg, if_false]
        exact ih seen
      | true =>
        cases hs : startsWithLit h "https://toonstream.love" with
        | false =>
          have hg : gauntletB h = false := by simp [gauntletB, hs]
          simp only [extractCardsGo, hn, hm, hs, Bool.not_true, if_false,
            Bool.not_false, if_true, gauntletHrefs, List.filterMap_cons, hg]
          exact ih seen
        | true =>
          have hg : gauntletB h = true := by simp [gauntletB, hm, hs]
          have hcard : (collectAnchorInfo a).url = some h := hn
          by_cases hseen : h ∈ seen
          · simp only [extractCardsGo, hn, hm, hs, Bool.not_true,
              Bool.false_eq_true, if_false, gauntletHrefs,
              List.filterMap_cons, hg, if_true, dedupFrom, hseen]
            exact ih seen
          · simp only [extractCardsGo, hn, hm, hs, Bool.not_true,
              Bool.false_eq_true, if_false, gauntletHrefs,
              List.filterMap_cons, hg, if_true, dedupFrom, hseen,
              List.map_cons]
            rw [ih (h :: seen), hcard]
            rfl

lemma dedupFrom_nodup_mem :
    ∀ (l seen : List String), (dedupFrom l seen).Nodup ∧
      (∀ h ∈ dedupFrom l seen, h ∉ seen ∧ h ∈ l) := by
  intro l
  induction l with
  | nil => intro seen; simp [dedupFrom]
  | cons h t ih =>
    intro seen
    by_cases hseen : h ∈ seen
    · obtain ⟨hnd, hmem⟩ := ih seen
      refine ⟨by simpa [dedupFrom, hseen] using hnd, ?_⟩
      intro h' hh'
      rw [dedupFrom, if_pos hseen] at hh'
      obtain ⟨hn, hm⟩ := hmem h' hh'
      exact ⟨hn, List.mem_cons_of_mem h hm⟩
    · obtain ⟨hnd, hmem⟩ := ih (h :: seen)
      constructor
      · rw [dedupFrom, if_neg hseen]
        refine List.nodup_cons.mpr ⟨?_, hnd⟩
        intro hcontra
        exact (hmem h hcontra).1 (List.mem_cons_self h seen)
      · intro h' hh'
        rw [dedupFrom, if_neg hseen] at hh'
        rcases List.mem_cons.mp hh' with rfl | hh2
        · exact ⟨hseen, List.mem_cons_self h' t⟩
        · obtain ⟨hn, hm⟩ := hmem h' hh2
          exact ⟨fun hc => hn (List.mem_cons_of_mem h hc),
            List.mem_cons_of_mem h hm⟩

lemma dedupFrom_of_nodup :
    ∀ (l seen : List String), l.Nodup → (∀ h ∈ l, h ∉ seen) →
      dedupFrom l seen = l := by
  intro l
  induction l with
  | nil => intro seen _ _; rfl
  | cons h t ih =>
    intro seen hnd hdisj
    have hseen : h ∉ seen := hdisj h (List.mem_cons_self h t)
    rw [dedupFrom, if_neg hseen]
    have hnd' := List.nodup_cons.mp hnd
    congr 1
    apply ih (h :: seen) hnd'.2
    intro h' hh'
    intro hc
    rcases List.mem_cons.mp hc with rfl | hc2
    · exact hnd'.1 hh'
    · exact hdisj h' (List.mem_cons_of_mem h hh') hc2

lemma extractCardsGo_mem :
    ∀ (anchors : List Anchor) (seen : List String) (c : HomepageCard),
      c ∈ extractCardsGo anchors seen →
      ∃ h a, a ∈ anchors ∧ normalizeUrl a.href = some h ∧
        matchesSectionPattern h = true ∧
        startsWithLit h "https://toonstream.love" = true ∧ c.url = some h := by
  intro anchors
  induction anchors with
  | nil => intro seen c hc; simp [extractCardsGo] at hc
  | cons a rest ih =>
    intro seen c hc
    cases hn : normalizeUrl a.href with
    | none =>
      simp only [extractCardsGo, hn] at hc
      obtain ⟨h, a', ha', rest'⟩ := ih seen c hc
      exact ⟨h, a', List.mem_cons_of_mem a ha', rest'⟩
    | some h =>
      cases hm : matchesSectionPattern h with
      | false =>
        simp only [extractCardsGo, hn, hm, Bool.not_false, if_true] at hc
        obtain ⟨h', a', ha', rest'⟩ := ih seen c hc
        exact ⟨h', a', List.mem_cons_of_mem a ha', rest'⟩
      | true =>
        cases hs : startsWithLit h "https://toonstream.love" with
        | false =>
          simp only [extractCardsGo, hn, hm, hs, Bool.not_true,
            Bool.not_false, Bool.false_eq_true, if_false, if_true] at hc
          obtain ⟨h', a', ha', rest'⟩ := ih seen c hc
          exact ⟨h', a', List.mem_cons_of_mem a ha', rest'⟩
        | true =>
          simp only [extractCardsGo, hn, hm, hs, Bool.not_true,
            Bool.false_eq_true, if_false] at hc
          by_cases hseen : h ∈ seen
          · rw [if_pos hseen] at hc
            obtain ⟨h', a', ha', rest'⟩ := ih seen c hc
            exact ⟨h', a', List.mem_cons_of_mem a ha', rest'⟩
          · rw [if_neg hseen] at hc
            rcases List.mem_cons.mp hc with rfl | hc2
            · exact ⟨h, a, List.mem_cons_self a rest, hn, hm, hs, hn⟩
            · obtain ⟨h', a', ha', rest'⟩ := ih (h :: seen) c hc2
              exact ⟨h', a', List.mem_cons_of_mem a ha', rest'⟩

lemma filterRelevant_length :
    ∀ (cards : List HomepageCard) (hs : List String),
      cards.map (fun c => c.url) = hs.map some →
      (filterRelevantHomepageEntries cards).length
        = (hs.filter isEpisodeHref).length := by
  intro cards
  induction cards with
  | nil =>
    intro hs h
    cases hs with
    | nil => rfl
    | cons h0 t => simp at h
  | cons c cs ih =>
    intro hs h
    cases hs with
    | nil => simp at h
    | cons h0 t =>
      simp only [List.map_cons, List.cons.injEq] at h
      obtain ⟨hcu, ht⟩ := h
      unfold filterRelevantHomepageEntries at ih ⊢
      rw [List.filter_cons, List.filter_cons]
      have hpred : (match c.url with
          | some u => isEpisodeHref u
          | none => false) = isEpisodeHref h0 := by
        rw [hcu]
      rw [hpred]
      cases hep : isEpisodeHref h0 with
      | false => simpa using ih t ht
      | true => simpa using ih t ht

/-- C7 (counterexample): the origin check of the extractor is a literal
string-prefix test, not a same-origin test.  An anchor to the foreign host
`toonstream.love.example.com` passes the prefix test and survives both the
extraction pass and the episode filter, although its URL is not same-origin
with the configured homepage. -/
theorem extract_cards_prefix_not_origin_cex :
    (filterRelevantHomepageEntries (extractHomepageEpisodeCards
        [⟨"https://toonstream.love.example.com/episode/a-1x1/", some "T", "",
          none, none, none, none⟩])).map (fun c => c.url)
      = [some "https://toonstream.love.example.com/episode/a-1x1/"] ∧
    sameOriginB "https://toonstream.love.example.com/episode/a-1x1/"
      "https://toonstream.love/" = false := by
  exact ⟨by decide, by decide⟩

/-- C7 (amended): every extracted card carries a non-null normalized URL of
some anchor that matches the section pattern and starts with the literal
homepage prefix; extracted URLs are deduplicated with first occurrence
winning; every filtered entry has a non-null URL matching the episode
pattern; and when the gauntlet-passing hrefs are pairwise distinct the
extraction yields them all in order and the filter yields exactly the
episode-shaped ones. -/
theorem extract_cards_spec (anchors : List Anchor) :
    (∀ c ∈ extractHomepageEpisodeCards anchors, ∃ h a, a ∈ anchors ∧
      normalizeUrl a.href = some h ∧ matchesSectionPattern h = true ∧
      startsWithLit h "https://toonstream.love" = true ∧ c.url = some h) ∧
    ((extractHomepageEpisodeCards anchors).map (fun c => c.url)).Nodup ∧
    (∀ c ∈ filterRelevantHomepageEntries (extractHomepageEpisodeCards anchors),
      ∃ h, c.url = some h ∧ isEpisodeHref h = true) ∧
    ((gauntletHrefs anchors).Nodup →
      (extractHomepageEpisodeCards anchors).map (fun c => c.url)
        = (gauntletHrefs anchors).map some ∧
      (filterRelevantHomepageEntries
          (extractHomepageEpisodeCards anchors)).length
        = ((gauntletHrefs anchors).filter isEpisodeHref).length) := by
  refine ⟨?_, ?_, ?_, ?_⟩
  · intro c hc
    obtain ⟨h, a, ha, hn, hm, hs, hu⟩ := extractCardsGo_mem anchors [] c hc
    exact ⟨h, a, ha, hn, hm, hs, hu⟩
  · rw [extractHomepageEpisodeCards, extractCardsGo_map_url anchors []]
    exact (dedupFrom_nodup_mem (gauntletHrefs anchors) []).1.map
      (Option.some_injective String)
  · intro c hc
    obtain ⟨hcmem, hpred⟩ := List.mem_filter.mp hc
    cases hcu : c.url with
    | none =>
      rw [hcu] at hpred
      simp at hpred
    | some h =>
      rw [hcu] at hpred
      exact ⟨h, rfl, by simpa using hpred⟩
  · intro hnd
    have hded : dedupFrom (gauntletHrefs anchors) [] = gauntletHrefs anchors :=
      dedupFrom_of_nodup (gauntletHrefs anchors) [] hnd (by simp)
    have hmap : (extractHomepageEpisodeCards anchors).map (fun c => c.url)
        = (gauntletHrefs anchors).map some := by
      rw [extractHomepageEpisodeCards, extractCardsGo_map_url anchors [], hded]
    exact ⟨hmap, filterRelevant_length (extractHomepageEpisodeCards anchors)
      (gauntletHrefs anchors) hmap⟩

/-- C7 (witness): a homepage with two distinct episode-shaped anchors, one
watch anchor (kept by extraction, dropped by the episode filter) and one
mailto anchor (dropped by extraction); the filter yields exactly the two
episode entries. -/
theorem extract_cards_spec_witness :
    (gauntletHrefs
      [⟨"https://toonstream.love/episode/a-1x1/", none, "A", none, none,
        none, none⟩,
       ⟨"https://toonstream.love/episode/b-2x3/", none, "B", none, none,
        none, none⟩,
       ⟨"https://toonstream.love/watch/c/", none, "C", none, none,
        none, none⟩,
       ⟨"mailto:root@example.com", none, "D", none, none, none, none⟩]).Nodup ∧
    (filterRelevantHomepageEntries (extractHomepageEpisodeCards
      [⟨"https://toonstream.love/episode/a-1x1/", none, "A", none, none,
        none, none⟩,
       ⟨"https://toonstream.love/episode/b-2x3/", none, "B", none, none,
        none, none⟩,
       ⟨"https://toonstream.love/watch/c/", none, "C", none, none,
        none, none⟩,
       ⟨"mailto:root@example.com", none, "D", none, none, none, none⟩])).length = 2 := by
  constructor
  · decide
  · have h := (extract_cards_spec
      [⟨"https://toonstream.love/episode/a-1x1/", none, "A", none, none,
        none, none⟩,
       ⟨"https://toonstream.love/episode/b-2x3/", none, "B", none, none,
        none, none⟩,
       ⟨"https://toonstream.love/watch/c/", none, "C", none, none,
        none, none⟩,
       ⟨"mailto:root@example.com", none, "D", none, none, none, none⟩]).2.2.2 (by decide)
    rw [h.2]
    decide

lemma insertByAddedAtDesc_perm (r : LatestRow) (l : List LatestRow) :
    List.Perm (insertByAddedAtDesc r l) (r :: l) := by
  induction l with
  | nil => exact List.Perm.refl _
  | cons x xs ih =>
    by_cases h : x.added_at ≤ r.added_at
    · rw [insertByAddedAtDesc, if_pos h]
    · rw [insertByAddedAtDesc, if_neg h]
      exact List.Perm.trans (List.Perm.cons x ih) (List.Perm.swap r x xs)

lemma sortByAddedAtDesc_perm (l : List LatestRow) :
    List.Perm (sortByAddedAtDesc l) l := by
  induction l with
  | nil => exact List.Perm.refl _
  | cons x xs ih =>
    exact List.Perm.trans (insertByAddedAtDesc_perm _ _) (List.Perm.cons x ih)

lemma insertByAddedAtDesc_sorted (r : LatestRow) (l : List LatestRow)
    (hl : l.Pairwise (fun a b => b.added_at ≤ a.added_at)) :
    (insertByAddedAtDesc r l).Pairwise
      (fun a b => b.added_at ≤ a.added_at) := by
  induction l with
  | nil => simp [insertByAddedAtDesc]
  | cons x xs ih =>
    obtain ⟨hx, hxs⟩ := List.pairwise_cons.mp hl
    by_cases h : x.added_at ≤ r.added_at
    · rw [insertByAddedAtDesc, if_pos h]
      refine List.pairwise_cons.mpr ⟨?_, hl⟩
      intro y hy
      rcases List.mem_cons.mp hy with rfl | hy2
      · exact h
      · exact le_trans (hx y hy2) h
    · rw [insertByAddedAtDesc, if_neg h]
      refine List.pairwise_cons.mpr ⟨?_, ih hxs⟩
      intro y hy
      have hy' : y ∈ r :: xs := (insertByAddedAtDesc_perm r xs).mem_iff.mp hy
      rcases List.mem_cons.mp hy' with rfl | hy2
      · omega
      · exact hx y hy2

lemma sortByAddedAtDesc_sorted (l : List LatestRow) :
    (sortByAddedAtDesc l).Pairwise (fun a b => b.added_at ≤ a.added_at) := by
  induction l with
  | nil => simp [sortByAddedAtDesc]
  | cons x xs ih => exact insertByAddedAtDesc_sorted x _ ih

lemma sortByAddedAtDesc_strict (l : List LatestRow)
    (hnd : (l.map (fun r => r.added_at)).Nodup) :
    (sortByAddedAtDesc l).Pairwise (fun a b => b.added_at < a.added_at) := by
  have hsorted := sortByAddedAtDesc_sorted l
  have hperm := sortByAddedAtDesc_perm l
  have hnd2 : ((sortByAddedAtDesc l).map (fun r => r.added_at)).Nodup :=
    ((hperm.map (fun r => r.added_at)).nodup_iff).mpr hnd
  have hne : (sortByAddedAtDesc l).Pairwise
      (fun a b => a.added_at ≠ b.added_at) := List.pairwise_map.mp hnd2
  refine List.Pairwise.imp ?_ (hsorted.and hne)
  intro a b hab
  omega

lemma sameLatestKey_true_iff (a b : LatestRow) :
    sameLatestKey a b = true ↔
      a.series_slug = b.series_slug ∧ a.season = b.season ∧
        a.episode = b.episode := by
  simp [sameLatestKey, and_assoc]

lemma sameLatestKey_self (a : LatestRow) : sameLatestKey a a = true := by
  simp [sameLatestKey]

/-- C4: pruning the latest window keeps exactly the `maxCount` most recent
entries by `added_at`: the result is a subset of the table, it is a
permutation of the first `maxCount` entries of the descending-ordered
view, every deleted entry is strictly older than every kept entry, the two
prune implementations agree, and the ordered view of the result is strictly
descending by timestamp. -/
theorem prune_latest_keeps_most_recent (maxCount : Nat)
    (table : List LatestRow)
    (hts : (table.map (fun r => r.added_at)).Nodup)
    (hid : (table.map (fun r => r.id)).Nodup)
    (hkey : table.Pairwise (fun a b =>
      ¬(a.series_slug = b.series_slug ∧ a.season = b.season ∧
        a.episode = b.episode))) :
    (pruneLatestEpisodesById maxCount table).Sublist table ∧
    List.Perm (pruneLatestEpisodesById maxCount table)
      ((sortByAddedAtDesc table).take maxCount) ∧
    (∀ r ∈ pruneLatestEpisodesById maxCount table, ∀ d ∈ table,
      d ∉ pruneLatestEpisodesById maxCount table →
      d.added_at < r.added_at) ∧
    pruneLatestEpisodesByKey maxCount table
      = pruneLatestEpisodesById maxCount table ∧
    (sortByAddedAtDesc (pruneLatestEpisodesById maxCount table)).Pairwise
      (fun a b => b.added_at < a.added_at) := by
  have hperm : List.Perm (sortByAddedAtDesc table) table :=
    sortByAddedAtDesc_perm table
  by_cases hlen : (sortByAddedAtDesc table).length ≤ maxCount
  · have hByIdEq : pruneLatestEpisodesById maxCount table = table := by
      simp only [pruneLatestEpisodesById]
      rw [if_pos hlen]
    have hByKeyEq : pruneLatestEpisodesByKey maxCount table = table := by
      simp only [pruneLatestEpisodesByKey]
      rw [if_neg (by omega)]
    have htake : (sortByAddedAtDesc table).take maxCount
        = sortByAddedAtDesc table := List.take_of_length_le hlen
    refine ⟨?_, ?_, ?_, ?_, ?_⟩
    · rw [hByIdEq]
    · rw [hByIdEq, htake]
      exact hperm.symm
    · intro r hr d hd hnd
      rw [hByIdEq] at hnd
      exact absurd hd hnd
    · rw [hByIdEq, hByKeyEq]
    · rw [hByIdEq]
      exact sortByAddedAtDesc_strict table hts
  · have hlen' : maxCount < (sortByAddedAtDesc table).length := by omega
    have htd := List.take_append_drop maxCount (sortByAddedAtDesc table)
    have hid_all : ((sortByAddedAtDesc table).map (fun r => r.id)).Nodup :=
      ((hperm.map (fun r => r.id)).nodup_iff).mpr hid
    have hts_all : ((sortByAddedAtDesc table).map
        (fun r => r.added_at)).Nodup :=
      ((hperm.map (fun r => r.added_at)).nodup_iff).mpr hts
    have hsymm : Symmetric (fun a b : LatestRow =>
        ¬(a.series_slug = b.series_slug ∧ a.season = b.season ∧
          a.episode = b.episode)) := by
      intro a b hab h
      exact hab ⟨h.1.symm, h.2.1.symm, h.2.2.symm⟩
    have hkey_all : (sortByAddedAtDesc table).Pairwise (fun a b =>
        ¬(a.series_slug = b.series_slug ∧ a.season = b.season ∧
          a.episode = b.episode)) :=
      (hperm.pairwise_iff (fun h => hsymm h)).mpr hkey
    have hidsplit : ((sortByAddedAtDesc table).map (fun x => x.id))
        = ((sortByAddedAtDesc table).take maxCount).map (fun x => x.id)
          ++ ((sortByAddedAtDesc table).drop maxCount).map (fun x => x.id) := by
      rw [← List.map_append, htd]
    have htssplit : ((sortByAddedAtDesc table).map (fun x => x.added_at))
        = ((sortByAddedAtDesc table).take maxCount).map (fun x => x.added_at)
          ++ ((sortByAddedAtDesc table).drop maxCount).map
            (fun x => x.added_at) := by
      rw [← List.map_append, htd]
    have hA : ∀ r ∈ (sortByAddedAtDesc table).take maxCount,
        ((((sortByAddedAtDesc table).drop maxCount).map (fun x => x.id)).any
          (fun i => i == r.id)) = false := by
      intro r hr
      by_contra hx
      have hx' : ((((sortByAddedAtDesc table).drop maxCount).map
          (fun x => x.id)).any (fun i => i == r.id)) = true := by
        simpa using hx
      obtain ⟨i, hi, hieq⟩ := List.any_eq_true.mp hx'
      have hieq' : i = r.id := by simpa using hieq
      have hnd2 := hid_all
      rw [hidsplit] at hnd2
      obtain ⟨-, -, hdisj⟩ := List.nodup_append.mp hnd2
      exact hdisj (List.mem_map.mpr ⟨r, hr, rfl⟩) (hieq' ▸ hi)
    have hB : ∀ r ∈ (sortByAddedAtDesc table).drop maxCount,
        ((((sortByAddedAtDesc table).drop maxCount).map (fun x => x.id)).any
          (fun i => i == r.id)) = true := by
      intro r hr
      exact List.any_eq_true.mpr ⟨r.id, List.mem_map.mpr ⟨r, hr, rfl⟩, by simp⟩
    have hByIdEq : pruneLatestEpisodesById maxCount table
        = table.filter (fun r =>
            !((((sortByAddedAtDesc table).drop maxCount).map
              (fun x => x.id)).any (fun i => i == r.id))) := by
      simp only [pruneLatestEpisodesById]
      rw [if_neg hlen]
    have hfilterall : List.Perm
        (table.filter (fun r =>
          !((((sortByAddedAtDesc table).drop maxCount).map
            (fun x => x.id)).any (fun i => i == r.id))))
        ((sortByAddedAtDesc table).filter (fun r =>
          !((((sortByAddedAtDesc table).drop maxCount).map
            (fun x => x.id)).any (fun i => i == r.id)))) :=
      (hperm.symm).filter _
    have hallfilter : (sortByAddedAtDesc table).filter (fun r =>
        !((((sortByAddedAtDesc table).drop maxCount).map
          (fun x => x.id)).any (fun i => i == r.id)))
        = (sortByAddedAtDesc table).take maxCount := by
      have e1 : ((sortByAddedAtDesc table).take maxCount).filter (fun r =>
          !((((sortByAddedAtDesc table).drop maxCount).map
            (fun x => x.id)).any (fun i => i == r.id)))
          = (sortByAddedAtDesc table).take maxCount :=
        List.filter_eq_self.mpr (fun a ha => by
          rw [hA a ha]
          rfl)
      have e2 : ((sortByAddedAtDesc table).drop maxCount).filter (fun r =>
          !((((sortByAddedAtDesc table).drop maxCount).map
            (fun x => x.id)).any (fun i => i == r.id)))
          = [] :=
        List.filter_eq_nil_iff.mpr (fun a ha => by
          rw [hB a ha]
          simp)
      have hsplit := congrArg (List.filter (fun r =>
        !((((sortByAddedAtDesc table).drop maxCount).map
          (fun x => x.id)).any (fun i => i == r.id)))) htd
      rw [List.filter_append] at hsplit
      rw [← hsplit, e1, e2, List.append_nil]
    refine ⟨?_, ?_, ?_, ?_, ?_⟩
    · rw [hByIdEq]
      exact List.filter_sublist table
    · rw [hByIdEq]
      exact hallfilter ▸ hfilterall
    · intro r hr d hd hdnot
      rw [hByIdEq] at hr hdnot
      have hrtake : r ∈ (sortByAddedAtDesc table).take maxCount := by
        rw [← hallfilter]
        exact hfilterall.mem_iff.mp hr
      have hdall : d ∈ sortByAddedAtDesc table := hperm.mem_iff.mpr hd
      have hdsplit : d ∈ (sortByAddedAtDesc table).take maxCount
          ∨ d ∈ (sortByAddedAtDesc table).drop maxCount := by
        rw [← htd] at hdall
        exact List.mem_append.mp hdall
      have hddrop : d ∈ (sortByAddedAtDesc table).drop maxCount := by
        rcases hdsplit with h1 | h1
        · exfalso
          apply hdnot
          refine List.mem_filter.mpr ⟨hd, ?_⟩
          rw [hA d h1]
          rfl
        · exact h1
      have hsorted := sortByAddedAtDesc_sorted table
      rw [← htd] at hsorted
      obtain ⟨-, -, hcross⟩ := List.pairwise_append.mp hsorted
      have hle : d.added_at ≤ r.added_at := hcross r hrtake d hddrop
      have hne : d.added_at ≠ r.added_at := by
        intro heq
        have hnd2 := hts_all
        rw [htssplit] at hnd2
        obtain ⟨-, -, hdisj⟩ := List.nodup_append.mp hnd2
        exact hdisj (List.mem_map.mpr ⟨r, hrtake, rfl⟩)
          (List.mem_map.mpr ⟨d, hddrop, heq⟩)
      omega
    · have hByKeyEq : pruneLatestEpisodesByKey maxCount table
          = table.filter (fun r =>
              !(((sortByAddedAtDesc table).drop maxCount).any
                (fun dr => sameLatestKey dr r))) := by
        simp only [pruneLatestEpisodesByKey]
        rw [if_pos hlen']
      rw [hByKeyEq, hByIdEq]
      apply List.filter_congr
      intro r hr
      have hrall : r ∈ sortByAddedAtDesc table := hperm.mem_iff.mpr hr
      have hone : (((sortByAddedAtDesc table).drop maxCount).any
          (fun dr => sameLatestKey dr r)) = true
          ↔ r ∈ (sortByAddedAtDesc table).drop maxCount := by
        constructor
        · intro hx
          obtain ⟨dr, hdr, hkeq⟩ := List.any_eq_true.mp hx
          obtain ⟨h1, h2, h3⟩ := (sameLatestKey_true_iff dr r).mp hkeq
          by_cases hdre : dr = r
          · exact hdre ▸ hdr
          · exfalso
            have hdrall : dr ∈ sortByAddedAtDesc table :=
              List.mem_of_mem_drop hdr
            exact (List.Pairwise.forall hsymm hkey_all hdrall hrall hdre)
              ⟨h1, h2, h3⟩
        · intro hx
          exact List.any_eq_true.mpr ⟨r, hx, sameLatestKey_self r⟩
      have htwo : ((((sortByAddedAtDesc table).drop maxCount).map
          (fun x => x.id)).any (fun i => i == r.id)) = true
          ↔ r ∈ (sortByAddedAtDesc table).drop maxCount := by
        constructor
        · intro hx
          obtain ⟨i, hi, hieq⟩ := List.any_eq_true.mp hx
          obtain ⟨d, hd, hdi⟩ := List.mem_map.mp hi
          have hieq' : i = r.id := by simpa using hieq
          have hdall : d ∈ sortByAddedAtDesc table := List.mem_of_mem_drop hd
          have hde : d = r :=
            List.inj_on_of_nodup_map hid_all hdall hrall (by rw [hdi, hieq'])
          exact hde ▸ hd
        · intro hx
          exact List.any_eq_true.mpr
            ⟨r.id, List.mem_map.mpr ⟨r, hx, rfl⟩, by simp⟩
      have heq : (((sortByAddedAtDesc table).drop maxCount).any
          (fun dr => sameLatestKey dr r))
          = ((((sortByAddedAtDesc table).drop maxCount).map
            (fun x => x.id)).any (fun i => i == r.id)) := by
        rw [Bool.eq_iff_iff, hone, htwo]
      rw [heq]
    · rw [hByIdEq]
      apply sortByAddedAtDesc_strict
      refine List.Nodup.sublist ?_ hts
      exact (List.filter_sublist table).map (fun r => r.added_at)

/-- C4 (witness): with `maxCount = 9` and 12 entries of strictly increasing
timestamps, pruning deletes exactly the 3 oldest; the 9 most recent remain
and their ordered view is descending by timestamp. -/
theorem prune_latest_keeps_most_recent_witness :
    ((exLatestTable.map (fun r => r.added_at)).Nodup) ∧
    ((exLatestTable.map (fun r => r.id)).Nodup) ∧
    (exLatestTable.Pairwise (fun a b =>
      ¬(a.series_slug = b.series_slug ∧ a.season = b.season ∧
        a.episode = b.episode))) ∧
    List.Perm (pruneLatestEpisodesById 9 exLatestTable)
      ((sortByAddedAtDesc exLatestTable).take 9) ∧
    pruneLatestEpisodesById 9 exLatestTable
      = (List.range' 4 9).map exLatestRow ∧
    sortByAddedAtDesc (pruneLatestEpisodesById 9 exLatestTable)
      = ((List.range' 4 9).map exLatestRow).reverse := by
  refine ⟨by decide, by decide, by decide, ?_, by decide, by decide⟩
  exact (prune_latest_keeps_most_recent 9 exLatestTable (by decide)
    (by decide) (by decide)).2.1

end LastAnime
